import Mathlib

/-!
# The Game of Life (`src/game.js`): a shallow embedding

The embedding follows `src/game.js` method by method.

* A JavaScript array of cells is a `List Cell`; an access `arr[i]` outside the
  array yields `undefined`, and reading or writing a property of `undefined`
  throws a `TypeError`: fallible methods return `Option`, with `none` standing
  for the uncaught `TypeError`.
* `null` in a boolean-or-null field is `none : Option Bool`.
* Values that may be a boolean or a number are `JSVal`; `+` and `==` on them
  follow the ECMAScript coercions (`false` converts to `0`, `true` to `1`).
* Grid coordinates are `Int` (the neighbour scan passes `-1`).
* `nGenerations` is a JavaScript number (an IEEE double) that holds a count; it
  is a `Nat`, and `+= 1` is `jsIncrement`, the double addition on such values:
  exact below `2 ^ 53`, and leaving `2 ^ 53` unchanged.
* `Math.random() > 0.5` is an oracle `rnd x y : Bool`, the outcome drawn while
  the cell `(x, y)` is constructed.
* Rendering (`draw`, `clearRect`) paints the canvas only and is left out.
-/

namespace Life

/-! ## Values -/

/-- A JavaScript value that is a boolean or a (whole) number. -/
inductive JSVal where
  | bool (b : Bool)
  | num (n : Int)
deriving DecidableEq, Repr

namespace JSVal

/-- ECMAScript `ToNumber` on booleans and numbers. -/
def toNumber : JSVal → Int
  | bool true => 1
  | bool false => 0
  | num n => n

/-- The operator `+` on booleans and numbers: both sides go through `ToNumber`. -/
def add (a b : JSVal) : JSVal := num (a.toNumber + b.toNumber)

/-- The loose comparison `v == n` against a number literal. -/
def looseEq (v : JSVal) (n : Int) : Bool := v.toNumber == n

end JSVal

/-- ECMAScript `ToBoolean` on a boolean-or-null field (`none` is `null`). -/
def truthy : Option Bool → Bool
  | some true => true
  | _ => false

/-! ## Cell -/

/-- A cell of the grid: `class Cell` without its rendering context. -/
structure Cell where
  gridX : Int
  gridY : Int
  alive : Option Bool
  nextAlive : Option Bool
deriving DecidableEq, Repr

/-- The constructor `new Cell(context, gridX, gridY)`; `r` is the outcome of
`Math.random() > 0.5`. -/
def Cell.new (gridX gridY : Int) (r : Bool) : Cell :=
  { gridX := gridX, gridY := gridY, alive := some r, nextAlive := none }

/-! ## GameWorld -/

/-- The field `animation`: never assigned by the constructor (`undefined`), set to
`null` by `stop()`, and to a request handle by `start()` and the timeout callback. -/
inductive Handle where
  | undefined
  | null
  | id (n : Nat)
deriving DecidableEq, Repr

/-- ECMAScript `ToBoolean` on the field `animation`. -/
def Handle.truthy : Handle → Bool
  | Handle.id n => n != 0
  | _ => false

/-- The mutable fields of `class GameWorld`. -/
structure GameWorld where
  gameObjects : List Cell
  nGenerations : Nat
  animation : Handle
deriving DecidableEq, Repr

/-- The largest count up to which every whole number is a double: `2 ^ 53`. -/
def maxExact : Nat := 9007199254740992

/-- The statement `n += 1` on a number that holds a whole count, in IEEE double
arithmetic with rounding to nearest, ties to even. Below `2 ^ 53` the sum is
exact. From `2 ^ 53` to `2 ^ 54` the doubles are the even numbers and `n + 1` is
a tie between `n` and `n + 2`, which goes to the one with the even significand;
in particular `2 ^ 53 + 1` rounds back to `2 ^ 53`. From `2 ^ 54` on the doubles
are at least 4 apart and `n + 1` rounds back to `n`. -/
def jsIncrement (n : Nat) : Nat :=
  if n < maxExact then n + 1
  else if n < 2 * maxExact then (if (n / 2) % 2 = 0 then n else n + 2)
  else n

/-- The static field `GameWorld.numColumns`. -/
def numColumns : Nat := 75

/-- The static field `GameWorld.numRows`. -/
def numRows : Nat := 40

/-- A counting loop `for (let i = 0; i < n; i++) body` over a state. -/
def forLoop {σ : Type} (n : Nat) (body : Nat → σ → σ) (s : σ) : σ :=
  (List.range n).foldl (fun s i => body i s) s

/-- A counting loop whose body may throw. -/
def forLoopM {σ : Type} (n : Nat) (body : Nat → σ → Option σ) (s : σ) : Option σ :=
  (List.range n).foldlM (fun s i => body i s) s

/-- The element access `arr[i]`: `none` is `undefined`. -/
def getObj (objs : List Cell) (i : Int) : Option Cell :=
  if i < 0 then none else objs[i.toNat]?

namespace GameWorld

/-- The method `createGrid()`: pushes one new cell per grid position, row by row. -/
def createGrid (rnd : Int → Int → Bool) (w : GameWorld) : GameWorld :=
  forLoop numRows (fun y w =>
    forLoop numColumns (fun x w =>
      { w with gameObjects := w.gameObjects ++ [Cell.new x y (rnd x y)] }) w) w

/-- The method `gridToIndex(x, y)`. -/
def gridToIndex (x y : Int) : Int := x + y * numColumns

/-- The method `isAlive(x, y)`. -/
def isAlive (w : GameWorld) (x y : Int) : Option JSVal :=
  if x < 0 ∨ x ≥ numColumns ∨ y < 0 ∨ y ≥ numRows then
    some (JSVal.bool false)
  else
    match getObj w.gameObjects (gridToIndex x y) with
    | none => none
    | some c => some (JSVal.num (if truthy c.alive then 1 else 0))

/-- The assignment `this.gameObjects[i].nextAlive = v`. -/
def setNextAlive (w : GameWorld) (i : Int) (v : Option Bool) : Option GameWorld :=
  match getObj w.gameObjects i with
  | none => none
  | some c =>
    some { w with gameObjects := w.gameObjects.set i.toNat { c with nextAlive := v } }

/-- The assignment `this.gameObjects[i].alive = this.gameObjects[i].nextAlive`. -/
def commitCell (w : GameWorld) (i : Nat) : Option GameWorld :=
  match getObj w.gameObjects i with
  | none => none
  | some c =>
    some { w with gameObjects := w.gameObjects.set i { c with alive := c.nextAlive } }

/-- The body of the evaluation loop of `checkSurrounding()` at the cell `(x, y)`. -/
def evalCell (w : GameWorld) (x y : Int) : Option GameWorld := do
  let a1 ← w.isAlive (x - 1) (y - 1)
  let a2 ← w.isAlive x (y - 1)
  let a3 ← w.isAlive (x + 1) (y - 1)
  let a4 ← w.isAlive (x - 1) y
  let a5 ← w.isAlive (x + 1) y
  let a6 ← w.isAlive (x - 1) (y + 1)
  let a7 ← w.isAlive x (y + 1)
  let a8 ← w.isAlive (x + 1) (y + 1)
  let numAlive := ((((((a1.add a2).add a3).add a4).add a5).add a6).add a7).add a8
  let centerIndex := gridToIndex x y
  if numAlive.looseEq 2 then
    let c ← getObj w.gameObjects centerIndex
    w.setNextAlive centerIndex c.alive
  else if numAlive.looseEq 3 then
    w.setNextAlive centerIndex (some true)
  else
    w.setNextAlive centerIndex (some false)

/-- The method `checkSurrounding()`: the evaluation loop (columns outermost), then
the commit loop over the whole collection. -/
def checkSurrounding (w : GameWorld) : Option GameWorld := do
  let w1 ← forLoopM numColumns (fun x w =>
    forLoopM numRows (fun y w => evalCell w x y) w) w
  forLoopM w1.gameObjects.length (fun i w => commitCell w i) w1

/-- The method `reset()`. -/
def reset (rnd : Int → Int → Bool) (w : GameWorld) : GameWorld :=
  let w1 := { w with gameObjects := [] }
  let w2 := createGrid rnd w1
  { w2 with nGenerations := 0 }

/-- The field initialisers of the constructor: `gameObjects = []`, `createGrid()`,
`nGenerations = 0`; `animation` is not assigned. -/
def construct (rnd : Int → Int → Bool) : GameWorld :=
  let w0 : GameWorld := { gameObjects := [], nGenerations := 0, animation := Handle.undefined }
  let w1 := createGrid rnd w0
  { w1 with nGenerations := 0 }

end GameWorld

/-! ## Specification-side definitions

These follow the wording of the specification and are what the code is compared
with. -/

/-- The fresh cell of row-major index `i`. -/
def cellOfIndex (rnd : Int → Int → Bool) (i : Nat) : Cell :=
  Cell.new ((i % numColumns : Nat) : Int) ((i / numColumns : Nat) : Int)
    (rnd ((i % numColumns : Nat) : Int) ((i / numColumns : Nat) : Int))

/-- The cells that a run of `createGrid()` pushes, in row-major order: the cell
of index `i` has coordinates `(i % numColumns, i / numColumns)`. -/
def freshCells (rnd : Int → Int → Bool) : List Cell :=
  (List.range (numRows * numColumns)).map (cellOfIndex rnd)

/-- The cells of the first `y` rows, in row-major order. -/
def firstCells (rnd : Int → Int → Bool) (y : Nat) : List Cell :=
  (List.range (y * numColumns)).map (cellOfIndex rnd)

/-- The cells pushed by the first `n` rounds of the inner loop of `createGrid()`
in row `y`. -/
def rowCells (rnd : Int → Int → Bool) (y n : Nat) : List Cell :=
  (List.range n).map (fun (x : Nat) => Cell.new (x : Int) (y : Int) (rnd x y))

/-- Row-major order: the collection has `numColumns * numRows` cells and the cell
at index `x + y * numColumns` carries the coordinates `(x, y)`. -/
def RowMajor (objs : List Cell) : Prop :=
  objs.length = numColumns * numRows ∧
  ∀ x y : Nat, x < numColumns → y < numRows →
    ∃ c, objs[x + y * numColumns]? = some c ∧ c.gridX = x ∧ c.gridY = y

/-- Whether the position `(x, y)` holds an alive cell, positions outside the grid
counting as dead. -/
def aliveAt (objs : List Cell) (x y : Int) : Bool :=
  decide (0 ≤ x ∧ x < numColumns ∧ 0 ≤ y ∧ y < numRows) &&
    (match getObj objs (x + y * numColumns) with
     | some c => truthy c.alive
     | none => false)

/-- The eight neighbour offsets `(dx, dy)`, the cell itself excluded. -/
def neighbourOffsets : List (Int × Int) :=
  [(-1, -1), (0, -1), (1, -1), (-1, 0), (1, 0), (-1, 1), (0, 1), (1, 1)]

/-- The number of alive cells among the eight neighbours of `(x, y)`. -/
def liveNeighbours (objs : List Cell) (x y : Int) : Nat :=
  neighbourOffsets.countP (fun d => aliveAt objs (x + d.1) (y + d.2))

/-- The three-branch rule of the specification: unchanged on two alive
neighbours, alive on three, dead otherwise. -/
def nextState (alive : Option Bool) (n : Nat) : Option Bool :=
  if n = 2 then alive else if n = 3 then some true else some false

/-- The cell `c` at `(x, y)` with its pending state set by the rule. -/
def pendingCell (objs : List Cell) (x y : Int) (c : Cell) : Cell :=
  { c with nextAlive := nextState c.alive (liveNeighbours objs x y) }

/-- The world `w` with its cell collection replaced. -/
def withObjects (w : GameWorld) (objs : List Cell) : GameWorld :=
  { w with gameObjects := objs }

/-- Frame of the evaluation loop: compared with `w0`, the world `w` differs at
most in the `nextAlive` fields of its cells. -/
def EvalFrame (w0 w : GameWorld) : Prop :=
  w.nGenerations = w0.nGenerations ∧ w.animation = w0.animation ∧
  w.gameObjects.length = w0.gameObjects.length ∧
  ∀ (j : Nat) (c : Cell), w0.gameObjects[j]? = some c →
    ∃ c2 : Cell, w.gameObjects[j]? = some c2 ∧ c2.gridX = c.gridX ∧ c2.gridY = c.gridY ∧
      c2.alive = c.alive

/-- The cell `(a, b)` of `w` carries the pending state computed from `w0`. -/
def Evaluated (w0 w : GameWorld) (a b : Nat) : Prop :=
  ∃ c c2 : Cell, w0.gameObjects[a + b * numColumns]? = some c ∧
    w.gameObjects[a + b * numColumns]? = some c2 ∧
    c2.nextAlive = nextState c.alive (liveNeighbours w0.gameObjects a b)

/-- A sample random outcome: a checkerboard. -/
def sampleRnd (x y : Int) : Bool := decide ((x + y) % 2 = 0)

/-- A world as the constructor leaves it, on the sample random outcome. -/
def sampleWorld : GameWorld := GameWorld.construct sampleRnd

/-- The cell `c` after the commit `alive = nextAlive`. -/
def committed (c : Cell) : Cell := { c with alive := c.nextAlive }

/-- A world with an empty cell collection, as the constructor and `reset()` have
it right before they call `createGrid()`. -/
def emptyWorld : GameWorld :=
  { gameObjects := [], nGenerations := 0, animation := Handle.undefined }

/-! ## The scheduler

`window.requestAnimationFrame`, `window.cancelAnimationFrame`, `setTimeout` and
`dispatchEvent` belong to the browser. They are modelled by an explicit set of
pending callbacks: every animation-frame callback the program registers runs
`gameLoop()`, every timeout callback is the closure of `gameLoop()` that
re-registers the frame when `this.animation` is truthy. -/

/-- The browser's side: the handles of the pending animation-frame callbacks (in
registration order), the number of pending timeout callbacks, the handle the
next `requestAnimationFrame` returns, and the payloads of the "gen" events
dispatched so far (oldest first). -/
structure Browser where
  frames : List Nat
  timeouts : Nat
  nextHandle : Nat
  events : List Nat
deriving DecidableEq, Repr

/-- The call `window.requestAnimationFrame(() => this.gameLoop())`: registers the
callback and returns its handle. -/
def Browser.requestAnimationFrame (b : Browser) : Nat × Browser :=
  (b.nextHandle,
    { b with frames := b.frames ++ [b.nextHandle], nextHandle := b.nextHandle + 1 })

/-- The call `window.cancelAnimationFrame(handle)`: drops the pending callback of
that handle, if there is one; `undefined` and `null` convert to the handle `0`,
which no callback has. -/
def Browser.cancelAnimationFrame (b : Browser) : Handle → Browser
  | Handle.id n => { b with frames := b.frames.erase n }
  | _ => b

/-- A `GameWorld` object together with the browser it runs in. -/
structure System where
  world : GameWorld
  browser : Browser
deriving DecidableEq, Repr

namespace System

/-- The state right after `new GameWorld(canvasId)`: nothing is pending, no event
has been dispatched, and the first request handle is `1`. -/
def initial (rnd : Int → Int → Bool) : System :=
  { world := GameWorld.construct rnd,
    browser := { frames := [], timeouts := 0, nextHandle := 1, events := [] } }

/-- The method `start()`. -/
def start (s : System) : System :=
  let r := s.browser.requestAnimationFrame
  { world := { s.world with animation := Handle.id r.1 }, browser := r.2 }

/-- The method `stop()`. -/
def stop (s : System) : System :=
  let b := s.browser.cancelAnimationFrame s.world.animation
  { world := { s.world with animation := Handle.null }, browser := b }

/-- The method `reset()`. -/
def reset (rnd : Int → Int → Bool) (s : System) : System :=
  { s with world := s.world.reset rnd }

/-- The method `gameLoop()`: the step, the increment of the generation counter,
the "gen" event with the counter as payload, and one more pending timeout. -/
def gameLoop (s : System) : Option System := do
  let w1 ← s.world.checkSurrounding
  let w2 : GameWorld := { w1 with nGenerations := jsIncrement w1.nGenerations }
  let b1 : Browser := { s.browser with events := s.browser.events ++ [w2.nGenerations] }
  let b2 : Browser := { b1 with timeouts := b1.timeouts + 1 }
  some { world := w2, browser := b2 }

/-- The timeout callback registered by `gameLoop()`. -/
def timeoutCallback (s : System) : System :=
  if s.world.animation.truthy then
    let r := s.browser.requestAnimationFrame
    { world := { s.world with animation := Handle.id r.1 }, browser := r.2 }
  else s

end System

/-- What can happen next: a call of the control interface, or the browser running
a pending callback. -/
inductive Action where
  | start
  | stop
  | reset (rnd : Int → Int → Bool)
  | frame (h : Nat)
  | timeout

/-- Whether the action is a call of `start()`. -/
def Action.isStart : Action → Bool
  | Action.start => true
  | _ => false

/-- Whether the action is a call of `stop()`. -/
def Action.isStop : Action → Bool
  | Action.stop => true
  | _ => false

/-- Whether the action is a call of `reset()`. -/
def Action.isReset : Action → Bool
  | Action.reset _ => true
  | _ => false

/-- Whether the action is an execution of `gameLoop()`. -/
def Action.isFrame : Action → Bool
  | Action.frame _ => true
  | _ => false

/-- One action. The browser runs a callback only if it is pending, and removes
it from the pending set before running it; `none` is an action that cannot
happen, or an uncaught `TypeError`. -/
def System.step (s : System) : Action → Option System
  | Action.start => some s.start
  | Action.stop => some s.stop
  | Action.reset rnd => some (s.reset rnd)
  | Action.frame h =>
    if h ∈ s.browser.frames then
      System.gameLoop { s with browser := { s.browser with frames := s.browser.frames.erase h } }
    else none
  | Action.timeout =>
    if 0 < s.browser.timeouts then
      some (System.timeoutCallback
        { s with browser := { s.browser with timeouts := s.browser.timeouts - 1 } })
    else none

/-- A sequence of actions, in order. -/
def System.run (s : System) (as : List Action) : Option System :=
  as.foldlM System.step s

/-- The number of executions of `gameLoop()` in a sequence of actions. -/
def countFrames (as : List Action) : Nat := as.countP Action.isFrame

/-- The number of chains: pending callbacks that lead to an execution of
`gameLoop()` while the game is not stopped. -/
def chains (s : System) : Nat := s.browser.frames.length + s.browser.timeouts

/-- At most one chain, and a pending frame is the one `this.animation` names. -/
def OneChain (s : System) : Prop :=
  (s.browser.frames = [] ∧ s.browser.timeouts ≤ 1) ∨
  (∃ h, s.browser.frames = [h] ∧ s.world.animation = Handle.id h ∧ s.browser.timeouts = 0)

/-- The collection has `numColumns * numRows` cells. -/
def WellFormed (s : System) : Prop :=
  s.world.gameObjects.length = numColumns * numRows

/-- The game is stopped and no execution of `gameLoop()` is pending. -/
def Halted (s : System) : Prop :=
  s.browser.frames = [] ∧ s.world.animation = Handle.null

/-- The sample system after `start()` and the first execution of `gameLoop()`. -/
def afterFirstFrame : System :=
  ((System.initial sampleRnd).start.run [Action.frame 1]).getD (System.initial sampleRnd)

/-- The sample system after `start()`, one execution of `gameLoop()`, `stop()`, and
the pending timeout firing. -/
def afterStopTimeout : System :=
  (afterFirstFrame.stop.run [Action.timeout]).getD (System.initial sampleRnd)

/-! ## The glider -/

/-- The five-cell glider placed at the offset `(ox, oy)`. -/
def gliderAt (ox oy : Int) : List (Int × Int) :=
  [(ox + 1, oy), (ox + 2, oy + 1), (ox, oy + 2), (ox + 1, oy + 2), (ox + 2, oy + 2)]

/-- The glider and its three intermediate generations, relative to the offset. -/
def gliderPhase : Nat → List (Int × Int)
  | 0 => [(1, 0), (2, 1), (0, 2), (1, 2), (2, 2)]
  | 1 => [(0, 1), (2, 1), (1, 2), (2, 2), (1, 3)]
  | 2 => [(2, 1), (0, 2), (2, 2), (1, 3), (2, 3)]
  | 3 => [(1, 1), (2, 2), (3, 2), (1, 3), (2, 3)]
  | _ => [(2, 1), (3, 2), (1, 3), (2, 3), (3, 3)]

/-- The rule on truth values: `truthy (nextState alive n)`. -/
def lifeRule (alive : Bool) (n : Nat) : Bool :=
  if n = 2 then alive else decide (n = 3)

/-- The number of positions of the pattern `P` among the eight neighbours of
`(a, b)`. -/
def nbrCount (P : List (Int × Int)) (a b : Int) : Nat :=
  neighbourOffsets.countP (fun d => decide ((a + d.1, b + d.2) ∈ P))

/-- The pattern lies in the window `[0, 3] × [0, 3]`. -/
def inWindow (P : List (Int × Int)) : Bool :=
  P.all (fun p => decide (0 ≤ p.1 ∧ p.1 ≤ 3 ∧ 0 ≤ p.2 ∧ p.2 ≤ 3))

/-- On the window `[-1, 4] × [-1, 4]`, one generation of the rule takes the pattern
`P` to the pattern `Q`. -/
def stepsTo (P Q : List (Int × Int)) : Bool :=
  (List.range 6).all (fun i => (List.range 6).all (fun j =>
    lifeRule (decide (((i : Int) - 1, (j : Int) - 1) ∈ P)) (nbrCount P ((i : Int) - 1) ((j : Int) - 1))
      == decide (((i : Int) - 1, (j : Int) - 1) ∈ Q)))

/-- A world whose alive cells are exactly the glider at the offset `(1, 1)`. -/
def gliderWorld : GameWorld :=
  { gameObjects := (List.range (numColumns * numRows)).map (fun i =>
      { gridX := ((i % numColumns : Nat) : Int), gridY := ((i / numColumns : Nat) : Int),
        alive := some (decide ((((i % numColumns : Nat) : Int), ((i / numColumns : Nat) : Int))
          ∈ gliderAt 1 1)),
        nextAlive := none }),
    nGenerations := 0,
    animation := Handle.undefined }

/-- The standard rule B3/S23 of the specification: a cell is alive in the next
generation iff it has three alive neighbours, or is alive and has two. -/
def b3s23 (alive : Bool) (n : Nat) : Bool :=
  decide (n = 3) || (alive && decide (n = 2))

/-- The field `alive` of the cell stored for the position `(x, y)`, if there is
one. -/
def aliveField (objs : List Cell) (x y : Int) : Option (Option Bool) :=
  (getObj objs (GameWorld.gridToIndex x y)).map Cell.alive

/-- A random outcome that agrees with `sampleRnd` on the columns 0 and 1 and on
the rows 0 and 1, and differs from it everywhere else (in particular in the
last column and in the last row). -/
def otherRnd (x y : Int) : Bool :=
  if 2 ≤ x ∧ 2 ≤ y then !(sampleRnd x y) else sampleRnd x y

/-- A world as the constructor leaves it on the outcome `otherRnd`. -/
def otherWorld : GameWorld := GameWorld.construct otherRnd

/-- The indices `centerIndex` whose `nextAlive` the evaluation loop of
`checkSurrounding()` writes, in the order of the writes: the loop nest of the
method with the write in place of the body. -/
def evalWrites : List Int :=
  forLoop numColumns (fun x t =>
    forLoop numRows (fun y t => t ++ [GameWorld.gridToIndex x y]) t) []

/-- The indices written while the evaluation loop is in column `x`. -/
def columnWrites (x : Nat) : List Int :=
  (List.range numRows).map (fun (y : Nat) => GameWorld.gridToIndex (x : Int) (y : Int))

/-- The result of `k` consecutive calls of `checkSurrounding()`. -/
def checkSurroundingN : Nat → GameWorld → Option GameWorld
  | 0, w => some w
  | k + 1, w => (checkSurroundingN k w).bind GameWorld.checkSurrounding

/-- A world of `numColumns * numRows` dead cells in row-major order. -/
def deadWorld : GameWorld := GameWorld.construct (fun _ _ => false)

/-- The actions of `start()` followed by `n` full cycles of the loop: the pending
frame fires (it runs `gameLoop()`), then the timeout it left fires (it requests
the next frame). Handles are given out in order, so the `i`-th cycle runs the
frame of handle `i`. -/
def cycleActions : Nat → List Action
  | 0 => [Action.start]
  | n + 1 => cycleActions n ++ [Action.frame (n + 1), Action.timeout]

/-- The sample system after `start()` and `n` full cycles. -/
def afterCycles (n : Nat) : System :=
  ((System.initial sampleRnd).run (cycleActions n)).getD (System.initial sampleRnd)

/-- One round of the evaluation loop of `checkSurrounding()`, run by `evalCell`
itself, that also appends to a log the index `centerIndex` the round assigns. -/
def evalCellLogged (s : GameWorld × List Int) (x y : Int) : Option (GameWorld × List Int) :=
  (GameWorld.evalCell s.1 x y).map (fun w => (w, s.2 ++ [GameWorld.gridToIndex x y]))

/-- The evaluation loop of `checkSurrounding()` over `evalCellLogged`, from the
empty log. -/
def evalLoopLogged (w : GameWorld) : Option (GameWorld × List Int) :=
  forLoopM numColumns (fun x s =>
    forLoopM numRows (fun y s => evalCellLogged s x y) s) (w, [])

/-! ## Loop lemmas -/

theorem forLoop_succ {σ : Type} (n : Nat) (body : Nat → σ → σ) (s : σ) :
    forLoop (n + 1) body s = body n (forLoop n body s) := by
  simp [forLoop, List.range_succ, List.foldl_append]

theorem forLoop_inv {σ : Type} (I : Nat → σ → Prop) (n : Nat) (body : Nat → σ → σ) (s : σ)
    (h0 : I 0 s) (hs : ∀ i, i < n → ∀ t, I i t → I (i + 1) (body i t)) :
    I n (forLoop n body s) := by
  induction n with
  | zero => simpa [forLoop] using h0
  | succ k ih =>
    rw [forLoop_succ]
    exact hs k (Nat.lt_succ_self k) _ (ih (fun i hi t ht => hs i (Nat.lt_succ_of_lt hi) t ht))

theorem forLoopM_succ {σ : Type} (n : Nat) (body : Nat → σ → Option σ) (s : σ) :
    forLoopM (n + 1) body s = (forLoopM n body s).bind (body n) := by
  simp [forLoopM, List.range_succ, List.foldlM_append]

theorem forLoopM_inv {σ : Type} (I : Nat → σ → Prop) (n : Nat) (body : Nat → σ → Option σ)
    (s : σ) (h0 : I 0 s)
    (hs : ∀ i, i < n → ∀ t, I i t → ∃ u, body i t = some u ∧ I (i + 1) u) :
    ∃ u, forLoopM n body s = some u ∧ I n u := by
  induction n with
  | zero => exact ⟨s, by simp [forLoopM], h0⟩
  | succ k ih =>
    obtain ⟨t, ht, hIt⟩ := ih (fun i hi t ht => hs i (Nat.lt_succ_of_lt hi) t ht)
    obtain ⟨u, hu, hIu⟩ := hs k (Nat.lt_succ_self k) t hIt
    exact ⟨u, by rw [forLoopM_succ, ht]; exact hu, hIu⟩

/-! ## `createGrid` -/

theorem createGrid_row (rnd : Int → Int → Bool) (y : Nat) (w : GameWorld) :
    forLoop numColumns (fun x w =>
      { w with gameObjects := w.gameObjects ++ [Cell.new x y (rnd x y)] }) w
    = { w with gameObjects := w.gameObjects ++ rowCells rnd y numColumns } := by
  refine forLoop_inv (fun n t => t = { w with gameObjects := w.gameObjects ++ rowCells rnd y n })
    numColumns _ w ?_ ?_
  · simp [rowCells]
  · intro i _ t ht
    subst ht
    simp [rowCells, List.range_succ]

theorem range_mul_succ (n : Nat) (f : Nat → Cell) (y : Nat) :
    (List.range ((y + 1) * n)).map f
    = (List.range (y * n)).map f ++ (List.range n).map (fun x => f (y * n + x)) := by
  have h : (y + 1) * n = y * n + n := by ring
  rw [h, List.range_add, List.map_append, List.map_map]
  rfl

theorem createGrid_eq (rnd : Int → Int → Bool) (w : GameWorld) :
    GameWorld.createGrid rnd w
    = { w with gameObjects := w.gameObjects ++ freshCells rnd } := by
  unfold GameWorld.createGrid freshCells
  refine forLoop_inv (fun y t => t = { w with gameObjects := w.gameObjects ++ firstCells rnd y })
    numRows _ w ?_ ?_
  · simp [firstCells]
  · intro y _ t ht
    subst ht
    have hrow : rowCells rnd y numColumns
        = (List.range numColumns).map (fun x => cellOfIndex rnd (y * numColumns + x)) := by
      unfold rowCells
      apply List.map_congr_left
      intro x hx
      have hx : x < 75 := by simpa [numColumns] using hx
      have h1 : (y * numColumns + x) % numColumns = x := by
        simp only [numColumns]; omega
      have h2 : (y * numColumns + x) / numColumns = y := by
        simp only [numColumns]; omega
      simp only [cellOfIndex, h1, h2]
    simp only [firstCells]
    rw [createGrid_row, range_mul_succ, hrow, List.append_assoc]

theorem freshCells_length (rnd : Int → Int → Bool) :
    (freshCells rnd).length = numColumns * numRows := by
  simp [freshCells, Nat.mul_comm]

theorem freshCells_get (rnd : Int → Int → Bool) (i : Nat) (hi : i < numColumns * numRows) :
    (freshCells rnd)[i]? = some (Cell.new ((i % numColumns : Nat) : Int)
      ((i / numColumns : Nat) : Int)
      (rnd ((i % numColumns : Nat) : Int) ((i / numColumns : Nat) : Int))) := by
  have hi2 : i < numRows * numColumns := by rwa [Nat.mul_comm]
  simp [freshCells, cellOfIndex, List.getElem?_map, List.getElem?_range hi2]

theorem freshCells_rowMajor (rnd : Int → Int → Bool) : RowMajor (freshCells rnd) := by
  refine ⟨freshCells_length rnd, ?_⟩
  intro x y hx hy
  have hx2 : x < 75 := by simpa [numColumns] using hx
  have hy2 : y < 40 := by simpa [numRows] using hy
  have hi : x + y * numColumns < numColumns * numRows := by
    simp only [numColumns, numRows]; omega
  have h1 : (x + y * numColumns) % numColumns = x := by
    simp only [numColumns]; omega
  have h2 : (x + y * numColumns) / numColumns = y := by
    simp only [numColumns]; omega
  refine ⟨_, freshCells_get rnd _ hi, ?_, ?_⟩
  · simp [Cell.new, h1]
  · simp [Cell.new, h2]

theorem numCells_eq : numColumns * numRows = 3000 := by decide

theorem createGrid_length (rnd : Int → Int → Bool) (w : GameWorld) :
    (GameWorld.createGrid rnd w).gameObjects.length
      = w.gameObjects.length + numColumns * numRows := by
  simp [createGrid_eq, freshCells_length]

theorem construct_objects (rnd : Int → Int → Bool) :
    (GameWorld.construct rnd).gameObjects = freshCells rnd := by
  simp [GameWorld.construct, createGrid_eq]

theorem construct_length (rnd : Int → Int → Bool) :
    (GameWorld.construct rnd).gameObjects.length = numColumns * numRows := by
  rw [construct_objects, freshCells_length]

theorem getObj_ofNat (objs : List Cell) (i : Nat) : getObj objs (i : Int) = objs[i]? := by
  simp [getObj]

theorem gridToIndex_ofNat (x y : Nat) :
    GameWorld.gridToIndex (x : Int) (y : Int) = ((x + y * numColumns : Nat) : Int) := by
  simp [GameWorld.gridToIndex]

/-- Coordinates inside the grid are casts of natural numbers below the bounds. -/
theorem inBounds_cast (x y : Int) (hx0 : 0 ≤ x) (hx : x < numColumns) (hy0 : 0 ≤ y)
    (hy : y < numRows) :
    ∃ a b : Nat, a < numColumns ∧ b < numRows ∧ x = (a : Int) ∧ y = (b : Int) := by
  refine ⟨x.toNat, y.toNat, ?_, ?_, ?_, ?_⟩ <;> omega

theorem index_lt (a b : Nat) (ha : a < numColumns) (hb : b < numRows) :
    a + b * numColumns < numColumns * numRows := by
  simp only [numColumns, numRows] at *; omega

theorem index_inj (a b a2 b2 : Nat) (ha : a < numColumns) (ha2 : a2 < numColumns)
    (h : a + b * numColumns = a2 + b2 * numColumns) : a = a2 ∧ b = b2 := by
  simp only [numColumns] at *; omega

/-! ## `isAlive` -/

theorem isAlive_outside (w : GameWorld) (x y : Int)
    (h : x < 0 ∨ x ≥ numColumns ∨ y < 0 ∨ y ≥ numRows) :
    w.isAlive x y = some (JSVal.bool false) := by
  simp [GameWorld.isAlive, h]

theorem isAlive_inside (w : GameWorld) (x y : Int) (hx0 : 0 ≤ x) (hx : x < numColumns)
    (hy0 : 0 ≤ y) (hy : y < numRows) (hlen : w.gameObjects.length = numColumns * numRows) :
    ∃ c, getObj w.gameObjects (GameWorld.gridToIndex x y) = some c ∧
      w.isAlive x y = some (JSVal.num (if truthy c.alive then 1 else 0)) := by
  obtain ⟨a, b, ha, hb, rfl, rfl⟩ := inBounds_cast x y hx0 hx hy0 hy
  have hlt : a + b * numColumns < w.gameObjects.length := by
    rw [hlen]; exact index_lt a b ha hb
  have hget : getObj w.gameObjects (GameWorld.gridToIndex a b)
      = some (w.gameObjects[a + b * numColumns]) := by
    rw [gridToIndex_ofNat, getObj_ofNat, List.getElem?_eq_getElem hlt]
  refine ⟨_, hget, ?_⟩
  have hcond : ¬ ((a : Int) < 0 ∨ (a : Int) ≥ numColumns ∨ (b : Int) < 0 ∨ (b : Int) ≥ numRows) := by
    omega
  simp only [GameWorld.isAlive, hcond, if_false, hget]

theorem isAlive_toNumber (w : GameWorld) (x y : Int)
    (hlen : w.gameObjects.length = numColumns * numRows) :
    ∃ v, w.isAlive x y = some v ∧
      v.toNumber = if aliveAt w.gameObjects x y then 1 else 0 := by
  by_cases h : x < 0 ∨ x ≥ numColumns ∨ y < 0 ∨ y ≥ numRows
  · refine ⟨_, isAlive_outside w x y h, ?_⟩
    have hd : ¬ (0 ≤ x ∧ x < numColumns ∧ 0 ≤ y ∧ y < numRows) := by omega
    simp [aliveAt, hd, JSVal.toNumber]
  · have hd : 0 ≤ x ∧ x < numColumns ∧ 0 ≤ y ∧ y < numRows := by omega
    obtain ⟨c, hc, hv⟩ := isAlive_inside w x y hd.1 hd.2.1 hd.2.2.1 hd.2.2.2 hlen
    refine ⟨_, hv, ?_⟩
    have hc2 : getObj w.gameObjects (x + y * numColumns) = some c := hc
    simp only [aliveAt, hd, hc2, JSVal.toNumber]
    simp

theorem aliveAt_frame (w0 w : GameWorld) (h : EvalFrame w0 w) (x y : Int) :
    aliveAt w.gameObjects x y = aliveAt w0.gameObjects x y := by
  obtain ⟨_, _, hlen, hcells⟩ := h
  by_cases hd : 0 ≤ x ∧ x < numColumns ∧ 0 ≤ y ∧ y < numRows
  · obtain ⟨a, b, ha, hb, rfl, rfl⟩ := inBounds_cast x y hd.1 hd.2.1 hd.2.2.1 hd.2.2.2
    have hidx : ((a : Int) + (b : Int) * (numColumns : Int)) = ((a + b * numColumns : Nat) : Int) := by
      simp
    simp only [aliveAt, hidx, getObj_ofNat]
    cases h0 : w0.gameObjects[a + b * numColumns]? with
    | none =>
      have h1 : w.gameObjects[a + b * numColumns]? = none := by
        rw [List.getElem?_eq_none_iff] at h0 ⊢
        omega
      rw [h1]
    | some c =>
      obtain ⟨c2, hc2, _, _, hal⟩ := hcells _ c h0
      rw [hc2]
      simp only [hal]
  · simp [aliveAt, hd]

theorem liveNeighbours_frame (w0 w : GameWorld) (h : EvalFrame w0 w) (x y : Int) :
    liveNeighbours w.gameObjects x y = liveNeighbours w0.gameObjects x y := by
  simp only [liveNeighbours, aliveAt_frame w0 w h]

/-! ## The evaluation loop of `checkSurrounding` -/

theorem liveNeighbours_sum (objs : List Cell) (x y : Int) :
    ((liveNeighbours objs x y : Nat) : Int)
      = (if aliveAt objs (x - 1) (y - 1) then 1 else 0)
        + (if aliveAt objs x (y - 1) then 1 else 0)
        + (if aliveAt objs (x + 1) (y - 1) then 1 else 0)
        + (if aliveAt objs (x - 1) y then 1 else 0)
        + (if aliveAt objs (x + 1) y then 1 else 0)
        + (if aliveAt objs (x - 1) (y + 1) then 1 else 0)
        + (if aliveAt objs x (y + 1) then 1 else 0)
        + (if aliveAt objs (x + 1) (y + 1) then 1 else 0) := by
  simp only [liveNeighbours, neighbourOffsets, List.countP_cons, List.countP_nil]
  push_cast
  simp only [add_zero, zero_add, Int.sub_eq_add_neg]
  ring

theorem toNumber_add (a b : JSVal) : (a.add b).toNumber = a.toNumber + b.toNumber := rfl

theorem evalCell_spec (w : GameWorld) (a b : Nat) (ha : a < numColumns) (hb : b < numRows)
    (hlen : w.gameObjects.length = numColumns * numRows) :
    ∃ c, w.gameObjects[a + b * numColumns]? = some c ∧
      GameWorld.evalCell w a b = some (withObjects w
        (w.gameObjects.set (a + b * numColumns) (pendingCell w.gameObjects a b c))) := by
  have hlt : a + b * numColumns < w.gameObjects.length := by
    rw [hlen]; exact index_lt a b ha hb
  have hget : w.gameObjects[a + b * numColumns]? = some (w.gameObjects[a + b * numColumns]) :=
    List.getElem?_eq_getElem hlt
  refine ⟨_, hget, ?_⟩
  obtain ⟨v1, h1, n1⟩ := isAlive_toNumber w ((a : Int) - 1) ((b : Int) - 1) hlen
  obtain ⟨v2, h2, n2⟩ := isAlive_toNumber w (a : Int) ((b : Int) - 1) hlen
  obtain ⟨v3, h3, n3⟩ := isAlive_toNumber w ((a : Int) + 1) ((b : Int) - 1) hlen
  obtain ⟨v4, h4, n4⟩ := isAlive_toNumber w ((a : Int) - 1) (b : Int) hlen
  obtain ⟨v5, h5, n5⟩ := isAlive_toNumber w ((a : Int) + 1) (b : Int) hlen
  obtain ⟨v6, h6, n6⟩ := isAlive_toNumber w ((a : Int) - 1) ((b : Int) + 1) hlen
  obtain ⟨v7, h7, n7⟩ := isAlive_toNumber w (a : Int) ((b : Int) + 1) hlen
  obtain ⟨v8, h8, n8⟩ := isAlive_toNumber w ((a : Int) + 1) ((b : Int) + 1) hlen
  have hsum : (((((((v1.add v2).add v3).add v4).add v5).add v6).add v7).add v8).toNumber
      = ((liveNeighbours w.gameObjects a b : Nat) : Int) := by
    rw [liveNeighbours_sum]
    simp only [toNumber_add, n1, n2, n3, n4, n5, n6, n7, n8]
  have hidx : getObj w.gameObjects (GameWorld.gridToIndex a b)
      = some (w.gameObjects[a + b * numColumns]) := by
    rw [gridToIndex_ofNat, getObj_ofNat, hget]
  have htn : (GameWorld.gridToIndex (a : Int) (b : Int)).toNat = a + b * numColumns := by
    rw [gridToIndex_ofNat, Int.toNat_ofNat]
  simp only [GameWorld.evalCell, h1, h2, h3, h4, h5, h6, h7, h8, Option.bind_eq_bind,
    Option.some_bind, JSVal.looseEq, hsum, GameWorld.setNextAlive, hidx, htn, nextState,
    pendingCell, withObjects]
  by_cases c2 : liveNeighbours w.gameObjects a b = 2
  · simp [c2]
  · by_cases c3 : liveNeighbours w.gameObjects a b = 3
    · simp [c3]
    · have e2 : ¬ ((liveNeighbours w.gameObjects a b : Nat) : Int) = 2 := by omega
      have e3 : ¬ ((liveNeighbours w.gameObjects a b : Nat) : Int) = 3 := by omega
      simp [c2, c3, e2, e3]

theorem evalFrame_refl (w : GameWorld) : EvalFrame w w :=
  ⟨rfl, rfl, rfl, fun _ c h => ⟨c, h, rfl, rfl, rfl⟩⟩

theorem evalCell_step (w0 w : GameWorld) (a b : Nat) (ha : a < numColumns) (hb : b < numRows)
    (hlen0 : w0.gameObjects.length = numColumns * numRows) (hf : EvalFrame w0 w) :
    ∃ u, GameWorld.evalCell w a b = some u ∧ EvalFrame w0 u ∧ Evaluated w0 u a b ∧
      ∀ j, j ≠ a + b * numColumns → u.gameObjects[j]? = w.gameObjects[j]? := by
  have hlen : w.gameObjects.length = numColumns * numRows := by rw [hf.2.2.1, hlen0]
  obtain ⟨c, hc, hu⟩ := evalCell_spec w a b ha hb hlen
  have hlt : a + b * numColumns < w.gameObjects.length := by
    rw [hlen]; exact index_lt a b ha hb
  have hlt0 : a + b * numColumns < w0.gameObjects.length := by
    rw [hlen0]; exact index_lt a b ha hb
  have hself : (w.gameObjects.set (a + b * numColumns) (pendingCell w.gameObjects a b c))[
      a + b * numColumns]? = some (pendingCell w.gameObjects a b c) := by
    rw [List.getElem?_set, if_pos rfl, if_pos hlt]
  refine ⟨_, hu, ⟨hf.1, hf.2.1, ?_, ?_⟩, ?_, ?_⟩
  · simp [withObjects, hf.2.2.1]
  · intro j c0 hj
    obtain ⟨c2, hc2, hx, hy, hal⟩ := hf.2.2.2 j c0 hj
    by_cases hij : a + b * numColumns = j
    · subst hij
      have hcc : c2 = c := by rw [hc] at hc2; exact (Option.some.inj hc2).symm
      subst hcc
      exact ⟨_, hself, hx, hy, hal⟩
    · refine ⟨c2, ?_, hx, hy, hal⟩
      simp only [withObjects]
      rw [List.getElem?_set_ne hij, hc2]
  · obtain ⟨c2, hc2, _, _, hal⟩ := hf.2.2.2 _ _ (List.getElem?_eq_getElem hlt0)
    have hcc : c2 = c := by rw [hc] at hc2; exact (Option.some.inj hc2).symm
    subst hcc
    refine ⟨_, _, List.getElem?_eq_getElem hlt0, hself, ?_⟩
    simp only [pendingCell, hal, liveNeighbours_frame w0 w hf]
  · intro j hj
    simp only [withObjects]
    rw [List.getElem?_set_ne (Ne.symm hj)]

theorem evaluated_of_unchanged (w0 w u : GameWorld) (a b : Nat)
    (h : u.gameObjects[a + b * numColumns]? = w.gameObjects[a + b * numColumns]?)
    (he : Evaluated w0 w a b) : Evaluated w0 u a b := by
  obtain ⟨c, c2, h0, h1, h2⟩ := he
  exact ⟨c, c2, h0, by rw [h, h1], h2⟩

/-- The inner loop of the evaluation phase: column `a`, all rows. -/
theorem evalColumn_spec (w0 w : GameWorld) (a : Nat) (ha : a < numColumns)
    (hlen0 : w0.gameObjects.length = numColumns * numRows) (hf : EvalFrame w0 w)
    (hprev : ∀ a2 b2, a2 < a → b2 < numRows → Evaluated w0 w a2 b2) :
    ∃ u, forLoopM numRows (fun y w => GameWorld.evalCell w a y) w = some u ∧ EvalFrame w0 u ∧
      ∀ a2 b2, a2 < a + 1 → b2 < numRows → Evaluated w0 u a2 b2 := by
  obtain ⟨u, hu, hfu, hev⟩ := forLoopM_inv
    (fun n t => EvalFrame w0 t ∧
      ∀ a2 b2, b2 < numRows → (a2 < a ∨ (a2 = a ∧ b2 < n)) → Evaluated w0 t a2 b2)
    numRows (fun y w => GameWorld.evalCell w (a : Int) (y : Int)) w
    ⟨hf, fun a2 b2 hb2 h => by
      rcases h with h | ⟨_, h⟩
      · exact hprev a2 b2 h hb2
      · omega⟩
    (by
      intro b hb t ⟨hft, het⟩
      obtain ⟨u, hu, hfu, heu, hsame⟩ := evalCell_step w0 t a b ha hb hlen0 hft
      refine ⟨u, hu, hfu, ?_⟩
      intro a2 b2 hb2 h
      by_cases hab : a2 = a ∧ b2 = b
      · obtain ⟨rfl, rfl⟩ := hab
        exact heu
      · have ha2 : a2 < numColumns := by
          rcases h with h | ⟨h, _⟩ <;> omega
        have hne : a2 + b2 * numColumns ≠ a + b * numColumns := by
          intro heq
          exact hab (index_inj a2 b2 a b ha2 ha heq)
        apply evaluated_of_unchanged w0 t u a2 b2 (hsame _ hne)
        apply het a2 b2 hb2
        rcases h with h | ⟨h1, h2⟩
        · exact Or.inl h
        · refine Or.inr ⟨h1, ?_⟩
          by_contra hcon
          exact hab ⟨h1, by omega⟩)
  refine ⟨u, hu, hfu, ?_⟩
  intro a2 b2 ha2 hb2
  apply hev a2 b2 hb2
  by_cases h : a2 < a
  · exact Or.inl h
  · exact Or.inr ⟨by omega, hb2⟩

/-- The evaluation phase: every cell is evaluated against the state before the call. -/
theorem evalPhase_spec (w : GameWorld)
    (hlen : w.gameObjects.length = numColumns * numRows) :
    ∃ u, forLoopM numColumns (fun x w =>
        forLoopM numRows (fun y w => GameWorld.evalCell w x y) w) w = some u ∧
      EvalFrame w u ∧ ∀ a b, a < numColumns → b < numRows → Evaluated w u a b := by
  obtain ⟨u, hu, hfu, hev⟩ := forLoopM_inv
    (fun n t => EvalFrame w t ∧ ∀ a2 b2, a2 < n → b2 < numRows → Evaluated w t a2 b2)
    numColumns (fun x w => forLoopM numRows (fun y w => GameWorld.evalCell w (x : Int) (y : Int)) w)
    w ⟨evalFrame_refl w, fun a2 b2 h _ => by omega⟩
    (by
      intro a ha t ⟨hft, het⟩
      exact evalColumn_spec w t a ha hlen hft het)
  exact ⟨u, hu, hfu, hev⟩

/-! ## The commit loop of `checkSurrounding` -/

theorem commitCell_spec (w : GameWorld) (i : Nat) (c : Cell)
    (h : w.gameObjects[i]? = some c) :
    GameWorld.commitCell w i = some (withObjects w (w.gameObjects.set i (committed c))) := by
  simp [GameWorld.commitCell, getObj_ofNat, h, withObjects, committed]

theorem commitPhase_spec (w : GameWorld) :
    ∃ u, forLoopM w.gameObjects.length (fun i w => GameWorld.commitCell w i) w = some u ∧
      u.nGenerations = w.nGenerations ∧ u.animation = w.animation ∧
      u.gameObjects.length = w.gameObjects.length ∧
      ∀ (j : Nat) (c : Cell), w.gameObjects[j]? = some c →
        u.gameObjects[j]? = some (committed c) := by
  obtain ⟨u, hu, h1, h2, h3, h4⟩ := forLoopM_inv
    (fun n t => t.nGenerations = w.nGenerations ∧ t.animation = w.animation ∧
      t.gameObjects.length = w.gameObjects.length ∧
      ∀ (j : Nat) (c : Cell), w.gameObjects[j]? = some c →
        t.gameObjects[j]? = some (if j < n then committed c else c))
    w.gameObjects.length (fun i w => GameWorld.commitCell w i) w
    ⟨rfl, rfl, rfl, fun j c h => by simpa using h⟩
    (by
      intro i hi t ⟨h1, h2, h3, h4⟩
      have hget : w.gameObjects[i]? = some (w.gameObjects[i]) := List.getElem?_eq_getElem hi
      have ht : t.gameObjects[i]? = some (w.gameObjects[i]) := by
        rw [h4 i _ hget, if_neg (Nat.lt_irrefl i)]
      refine ⟨_, commitCell_spec t i _ ht, h1, h2, ?_, ?_⟩
      · simp [withObjects, h3]
      · intro j c hj
        simp only [withObjects]
        by_cases hij : i = j
        · subst hij
          have hc : c = w.gameObjects[i] := by
            rw [hget] at hj; exact (Option.some.inj hj).symm
          rw [List.getElem?_set, if_pos rfl, if_pos (by rw [h3]; exact hi),
            if_pos (Nat.lt_succ_self i), hc]
        · rw [List.getElem?_set_ne hij, h4 j c hj]
          have hiff : (j < i + 1) ↔ (j < i) := by omega
          simp only [hiff])
  refine ⟨u, hu, h1, h2, h3, ?_⟩
  intro j c hj
  have hlt : j < w.gameObjects.length := by
    by_contra hcon
    rw [List.getElem?_eq_none_iff.2 (by omega)] at hj
    exact Option.noConfusion hj
  rw [h4 j c hj, if_pos hlt]

/-! ## `checkSurrounding` -/

/-- One call of `checkSurrounding()` on a collection of `numColumns * numRows`
cells returns, and every cell then carries, as pending and as committed state,
the value of the rule on the state before the call. -/
theorem checkSurrounding_spec (w : GameWorld)
    (hlen : w.gameObjects.length = numColumns * numRows) :
    ∃ u, w.checkSurrounding = some u ∧
      u.nGenerations = w.nGenerations ∧ u.animation = w.animation ∧
      u.gameObjects.length = w.gameObjects.length ∧
      ∀ a b : Nat, a < numColumns → b < numRows →
        ∃ c c2 : Cell, w.gameObjects[a + b * numColumns]? = some c ∧
          u.gameObjects[a + b * numColumns]? = some c2 ∧
          c2.gridX = c.gridX ∧ c2.gridY = c.gridY ∧
          c2.nextAlive = nextState c.alive (liveNeighbours w.gameObjects a b) ∧
          c2.alive = nextState c.alive (liveNeighbours w.gameObjects a b) := by
  obtain ⟨w1, hw1, hf, hev⟩ := evalPhase_spec w hlen
  obtain ⟨u, hu, h1, h2, h3, h4⟩ := commitPhase_spec w1
  refine ⟨u, ?_, by rw [h1, hf.1], by rw [h2, hf.2.1], by rw [h3, hf.2.2.1], ?_⟩
  · simp only [GameWorld.checkSurrounding, hw1, Option.bind_eq_bind, Option.some_bind, hu]
  · intro a b ha hb
    obtain ⟨c, c1, hc, hc1, hnext⟩ := hev a b ha hb
    obtain ⟨c1b, hc1b, hx, hy, _⟩ := hf.2.2.2 _ c hc
    have hcc : c1b = c1 := by rw [hc1] at hc1b; exact (Option.some.inj hc1b).symm
    subst hcc
    refine ⟨c, committed c1b, hc, h4 _ c1b hc1, ?_, ?_, ?_, ?_⟩
    · simpa [committed] using hx
    · simpa [committed] using hy
    · simpa [committed] using hnext
    · simpa [committed] using hnext

/-! ## The scheduler -/

theorem gameLoop_spec (s : System)
    (hlen : s.world.gameObjects.length = numColumns * numRows) :
    ∃ u, s.gameLoop = some u ∧
      u.world.gameObjects.length = numColumns * numRows ∧
      u.world.nGenerations = jsIncrement s.world.nGenerations ∧
      u.world.animation = s.world.animation ∧
      u.browser.events = s.browser.events ++ [jsIncrement s.world.nGenerations] ∧
      u.browser.frames = s.browser.frames ∧
      u.browser.timeouts = s.browser.timeouts + 1 ∧
      u.browser.nextHandle = s.browser.nextHandle := by
  obtain ⟨w1, hw1, hg, ha, hl, _⟩ := checkSurrounding_spec s.world hlen
  have hgl : s.gameLoop = some
      ⟨⟨w1.gameObjects, jsIncrement w1.nGenerations, w1.animation⟩,
        ⟨s.browser.frames, s.browser.timeouts + 1, s.browser.nextHandle,
          s.browser.events ++ [jsIncrement w1.nGenerations]⟩⟩ := by
    simp only [System.gameLoop, hw1, Option.bind_eq_bind, Option.some_bind]
  refine ⟨_, hgl, ?_, ?_, ?_, ?_, rfl, rfl, rfl⟩
  · simp [hl, hlen]
  · simp [hg]
  · simp [ha]
  · simp [hg]

theorem step_frame_spec (s : System) (h : Nat) (hwf : WellFormed s)
    (hmem : h ∈ s.browser.frames) :
    ∃ u, s.step (Action.frame h) = some u ∧ WellFormed u ∧
      u.world.nGenerations = jsIncrement s.world.nGenerations ∧
      u.world.animation = s.world.animation ∧
      u.browser.events = s.browser.events ++ [jsIncrement s.world.nGenerations] ∧
      u.browser.frames = s.browser.frames.erase h ∧
      u.browser.timeouts = s.browser.timeouts + 1 := by
  obtain ⟨u, hu, h1, h2, h3, h4, h5, h6, h7⟩ := gameLoop_spec
    { s with browser := { s.browser with frames := s.browser.frames.erase h } } hwf
  exact ⟨u, by simp only [System.step, hmem, if_true]; exact hu, h1, h2, h3, h4, h5, h6⟩

theorem step_frame_mem (s u : System) (h : Nat) (hu : s.step (Action.frame h) = some u) :
    h ∈ s.browser.frames := by
  by_contra hcon
  simp [System.step, hcon] at hu

theorem step_timeout_pos (s u : System) (hu : s.step Action.timeout = some u) :
    0 < s.browser.timeouts := by
  by_contra hcon
  simp [System.step, hcon] at hu

theorem reset_length (rnd : Int → Int → Bool) (w : GameWorld) :
    (w.reset rnd).gameObjects.length = numColumns * numRows := by
  simp [GameWorld.reset, createGrid_eq, freshCells_length]

theorem step_wellFormed (s u : System) (a : Action) (hwf : WellFormed s)
    (hu : s.step a = some u) : WellFormed u := by
  cases a with
  | start =>
    simp only [System.step, Option.some.injEq] at hu
    subst hu
    exact hwf
  | stop =>
    simp only [System.step, Option.some.injEq] at hu
    subst hu
    exact hwf
  | reset rnd =>
    simp only [System.step, Option.some.injEq] at hu
    subst hu
    exact reset_length rnd s.world
  | frame h =>
    obtain ⟨v, hv, hwfv, _⟩ := step_frame_spec s h hwf (step_frame_mem s u h hu)
    rw [hv] at hu
    exact (Option.some.inj hu) ▸ hwfv
  | timeout =>
    have hpos := step_timeout_pos s u hu
    simp only [System.step, hpos, if_true, Option.some.injEq] at hu
    subst hu
    simp only [System.timeoutCallback]
    split
    · exact hwf
    · exact hwf

theorem run_nil (s : System) : s.run [] = some s := rfl

theorem run_cons (s : System) (a : Action) (as : List Action) :
    s.run (a :: as) = (s.step a).bind (fun t => t.run as) := by
  simp [System.run, List.foldlM_cons]

theorem run_wellFormed (as : List Action) (s u : System) (hwf : WellFormed s)
    (hu : s.run as = some u) : WellFormed u := by
  induction as generalizing s with
  | nil =>
    rw [run_nil] at hu
    exact (Option.some.inj hu) ▸ hwf
  | cons a as ih =>
    rw [run_cons] at hu
    cases ht : s.step a with
    | none => rw [ht] at hu; exact Option.noConfusion hu
    | some t =>
      rw [ht] at hu
      exact ih t (step_wellFormed s t a hwf ht) hu

theorem cancel_events (b : Browser) (h : Handle) :
    (b.cancelAnimationFrame h).events = b.events := by
  cases h <;> rfl

theorem cancel_timeouts (b : Browser) (h : Handle) :
    (b.cancelAnimationFrame h).timeouts = b.timeouts := by
  cases h <;> rfl

/-- Actions other than `gameLoop()` and `reset()` change neither the generation
counter, nor the cells, nor the events dispatched. -/
theorem step_other (s u : System) (a : Action) (hf : a.isFrame = false)
    (hr : a.isReset = false) (hu : s.step a = some u) :
    u.world.nGenerations = s.world.nGenerations ∧ u.browser.events = s.browser.events ∧
      u.world.gameObjects = s.world.gameObjects := by
  cases a with
  | start =>
    simp only [System.step, Option.some.injEq] at hu
    subst hu
    exact ⟨rfl, rfl, rfl⟩
  | stop =>
    simp only [System.step, Option.some.injEq] at hu
    subst hu
    exact ⟨rfl, cancel_events _ _, rfl⟩
  | reset rnd => simp [Action.isReset] at hr
  | frame h => simp [Action.isFrame] at hf
  | timeout =>
    have hpos := step_timeout_pos s u hu
    simp only [System.step, hpos, if_true, Option.some.injEq] at hu
    subst hu
    simp only [System.timeoutCallback]
    split <;> exact ⟨rfl, rfl, rfl⟩

theorem countFrames_cons (a : Action) (as : List Action) :
    countFrames (a :: as) = countFrames as + (if a.isFrame then 1 else 0) := by
  simp [countFrames, List.countP_cons]

theorem jsIncrement_lt (n : Nat) (h : n < maxExact) : jsIncrement n = n + 1 := by
  simp [jsIncrement, h]

theorem jsIncrement_maxExact : jsIncrement maxExact = maxExact := by
  decide

/-- Along a sequence of actions without `reset()` that keeps the count within
`2 ^ 53`, the generation counter grows by the number of executions of
`gameLoop()`, and the events dispatched are the successive counter values. -/
theorem run_counts (as : List Action) (s u : System) (hwf : WellFormed s)
    (hr : ∀ a ∈ as, a.isReset = false)
    (hb : s.world.nGenerations + countFrames as ≤ maxExact) (hu : s.run as = some u) :
    u.world.nGenerations = s.world.nGenerations + countFrames as ∧
      u.browser.events
        = s.browser.events ++ List.range' (s.world.nGenerations + 1) (countFrames as) := by
  induction as generalizing s with
  | nil =>
    rw [run_nil] at hu
    have := Option.some.inj hu
    subst this
    simp [countFrames]
  | cons a as ih =>
    rw [run_cons] at hu
    cases ht : s.step a with
    | none => rw [ht] at hu; exact Option.noConfusion hu
    | some t =>
      rw [ht] at hu
      have hra : a.isReset = false := hr a (List.mem_cons_self a as)
      rw [countFrames_cons] at hb ⊢
      by_cases hf : a.isFrame = true
      · cases a with
        | frame h =>
          obtain ⟨v, hv, _, h2, _, h4, _⟩ := step_frame_spec s h hwf (step_frame_mem s t h ht)
          rw [hv] at ht
          have := Option.some.inj ht
          subst this
          simp only [Action.isFrame, if_true] at hb ⊢
          have hinc : jsIncrement s.world.nGenerations = s.world.nGenerations + 1 :=
            jsIncrement_lt _ (by omega)
          rw [hinc] at h2 h4
          obtain ⟨ih1, ih2⟩ := ih v (step_wellFormed s v (Action.frame h) hwf hv)
            (fun b hb => hr b (List.mem_cons_of_mem _ hb)) (by rw [h2]; omega) hu
          rw [ih1, ih2, h2, h4]
          refine ⟨by omega, ?_⟩
          rw [List.append_assoc, List.range'_succ]
          rfl
        | _ => simp [Action.isFrame] at hf
      · have hf2 : a.isFrame = false := by simpa using hf
        obtain ⟨h1, h2, _⟩ := step_other s t a hf2 hra ht
        simp only [hf2, Bool.false_eq_true, if_false, Nat.add_zero] at hb ⊢
        obtain ⟨ih1, ih2⟩ := ih t (step_wellFormed s t a hwf ht)
          (fun b hb => hr b (List.mem_cons_of_mem a hb)) (by rw [h1]; exact hb) hu
        rw [ih1, ih2, h1, h2]
        exact ⟨rfl, rfl⟩

theorem reset_animation_sys (rnd : Int → Int → Bool) (s : System) :
    (s.reset rnd).world.animation = s.world.animation := by
  simp [System.reset, GameWorld.reset, createGrid_eq]

theorem reset_browser (rnd : Int → Int → Bool) (s : System) :
    (s.reset rnd).browser = s.browser := by
  simp [System.reset]

theorem chains_step_frame (s u : System) (h : Nat) (hwf : WellFormed s)
    (hu : s.step (Action.frame h) = some u) : chains u = chains s := by
  have hmem := step_frame_mem s u h hu
  obtain ⟨v, hv, _, _, _, _, h5, h6⟩ := step_frame_spec s h hwf hmem
  rw [hv] at hu
  have := Option.some.inj hu
  subst this
  have hpos : 0 < s.browser.frames.length := List.length_pos_of_mem hmem
  simp only [chains, h5, h6, List.length_erase_of_mem hmem]
  omega

theorem chains_step_timeout (s u : System) (ht : s.world.animation.truthy = true)
    (hu : s.step Action.timeout = some u) : chains u = chains s := by
  have hpos := step_timeout_pos s u hu
  simp only [System.step, hpos, if_true, Option.some.injEq] at hu
  subst hu
  simp only [chains, System.timeoutCallback, ht, if_true, Browser.requestAnimationFrame,
    List.length_append, List.length_singleton]
  omega

/-- The single chain that one `start()` opens stays single under the callbacks
and `reset()`. -/
theorem oneChain_step (s u : System) (a : Action) (hwf : WellFormed s) (hc : OneChain s)
    (hs : a.isStart = false) (hp : a.isStop = false) (hu : s.step a = some u) :
    OneChain u := by
  cases a with
  | start => simp [Action.isStart] at hs
  | stop => simp [Action.isStop] at hp
  | reset rnd =>
    simp only [System.step, Option.some.injEq] at hu
    subst hu
    have hc2 := hc
    unfold OneChain at hc2 ⊢
    rw [reset_animation_sys, reset_browser]
    exact hc2
  | frame h =>
    have hmem := step_frame_mem s u h hu
    obtain ⟨v, hv, _, _, _, _, h5, h6⟩ := step_frame_spec s h hwf hmem
    rw [hv] at hu
    have := Option.some.inj hu
    subst this
    rcases hc with ⟨h1, _⟩ | ⟨k, h1, _, h3⟩
    · rw [h1] at hmem; exact absurd hmem (List.not_mem_nil h)
    · left
      rw [h1] at hmem
      have hk : h = k := by simpa using hmem
      subst hk
      refine ⟨by rw [h5, h1]; simp, by rw [h6, h3]⟩
  | timeout =>
    have hpos := step_timeout_pos s u hu
    simp only [System.step, hpos, if_true, Option.some.injEq] at hu
    subst hu
    rcases hc with ⟨h1, h2⟩ | ⟨k, _, _, h3⟩
    · simp only [System.timeoutCallback]
      split
      · right
        refine ⟨s.browser.nextHandle, ?_, rfl, ?_⟩
        · simp [Browser.requestAnimationFrame, h1]
        · simp only [Browser.requestAnimationFrame]; omega
      · left
        exact ⟨h1, by simp only; omega⟩
    · omega

theorem oneChain_run (as : List Action) (s u : System) (hwf : WellFormed s) (hc : OneChain s)
    (hs : ∀ a ∈ as, a.isStart = false ∧ a.isStop = false) (hu : s.run as = some u) :
    OneChain u := by
  induction as generalizing s with
  | nil =>
    rw [run_nil] at hu
    exact (Option.some.inj hu) ▸ hc
  | cons a as ih =>
    rw [run_cons] at hu
    cases ht : s.step a with
    | none => rw [ht] at hu; exact Option.noConfusion hu
    | some t =>
      rw [ht] at hu
      have ha := hs a (List.mem_cons_self a as)
      exact ih t (step_wellFormed s t a hwf ht) (oneChain_step s t a hwf hc ha.1 ha.2 ht)
        (fun b hb => hs b (List.mem_cons_of_mem a hb)) hu

theorem oneChain_start (s : System) (hf : s.browser.frames = [])
    (ht : s.browser.timeouts = 0) : OneChain s.start := by
  refine Or.inr ⟨s.browser.nextHandle, ?_, rfl, ht⟩
  simp [System.start, Browser.requestAnimationFrame, hf]

theorem halted_stop (s : System) (hc : OneChain s) : Halted s.stop := by
  rcases hc with ⟨h1, _⟩ | ⟨k, h1, h2, _⟩
  · refine ⟨?_, rfl⟩
    simp only [System.stop]
    cases s.world.animation <;> simp [Browser.cancelAnimationFrame, h1]
  · refine ⟨?_, rfl⟩
    simp [System.stop, h2, Browser.cancelAnimationFrame, h1]

/-- Once halted, an action other than `start()` is never an execution of
`gameLoop()`, keeps the system halted and dispatches nothing. -/
theorem halted_step (s u : System) (a : Action) (hh : Halted s) (hs : a.isStart = false)
    (hu : s.step a = some u) :
    Halted u ∧ a.isFrame = false ∧ u.browser.events = s.browser.events := by
  cases a with
  | start => simp [Action.isStart] at hs
  | stop =>
    simp only [System.step, Option.some.injEq] at hu
    subst hu
    refine ⟨⟨?_, rfl⟩, rfl, cancel_events _ _⟩
    simp [System.stop, hh.2, Browser.cancelAnimationFrame, hh.1]
  | reset rnd =>
    simp only [System.step, Option.some.injEq] at hu
    subst hu
    refine ⟨⟨?_, ?_⟩, rfl, ?_⟩
    · rw [reset_browser]; exact hh.1
    · rw [reset_animation_sys]; exact hh.2
    · rw [reset_browser]
  | frame h =>
    have hmem := step_frame_mem s u h hu
    rw [hh.1] at hmem
    exact absurd hmem (List.not_mem_nil h)
  | timeout =>
    have hpos := step_timeout_pos s u hu
    simp only [System.step, hpos, if_true, Option.some.injEq] at hu
    subst hu
    simp only [System.timeoutCallback, hh.2, Handle.truthy]
    exact ⟨⟨hh.1, hh.2⟩, rfl, rfl⟩

theorem halted_run (as : List Action) (s u : System) (hh : Halted s)
    (hs : ∀ a ∈ as, a.isStart = false) (hu : s.run as = some u) :
    Halted u ∧ countFrames as = 0 ∧ u.browser.events = s.browser.events := by
  induction as generalizing s with
  | nil =>
    rw [run_nil] at hu
    have := Option.some.inj hu
    subst this
    exact ⟨hh, rfl, rfl⟩
  | cons a as ih =>
    rw [run_cons] at hu
    cases ht : s.step a with
    | none => rw [ht] at hu; exact Option.noConfusion hu
    | some t =>
      rw [ht] at hu
      obtain ⟨h1, h2, h3⟩ := halted_step s t a hh (hs a (List.mem_cons_self a as)) ht
      obtain ⟨i1, i2, i3⟩ := ih t h1 (fun b hb => hs b (List.mem_cons_of_mem a hb)) hu
      refine ⟨i1, ?_, by rw [i3, h3]⟩
      rw [countFrames_cons, i2, h2]
      rfl

/-! ## The claims -/

/-- C1: on a collection of `numColumns * numRows` cells, one call of
`checkSurrounding()` returns, and for every in-bounds cell `(x, y)` the new `alive`
is the old one if `n = 2`, `true` if `n = 3` and `false` otherwise, where `n` is
the number of alive neighbours counted in the state before the call, positions
outside the grid counting as dead. -/
theorem checkSurrounding_from_snapshot (w : GameWorld)
    (hlen : w.gameObjects.length = numColumns * numRows) :
    ∃ u, w.checkSurrounding = some u ∧
      ∀ x y : Int, 0 ≤ x → x < numColumns → 0 ≤ y → y < numRows →
        ∃ c c2 : Cell, getObj w.gameObjects (GameWorld.gridToIndex x y) = some c ∧
          getObj u.gameObjects (GameWorld.gridToIndex x y) = some c2 ∧
          c2.alive = (if liveNeighbours w.gameObjects x y = 2 then c.alive
            else if liveNeighbours w.gameObjects x y = 3 then some true else some false) := by
  obtain ⟨u, hu, _, _, _, hcells⟩ := checkSurrounding_spec w hlen
  refine ⟨u, hu, ?_⟩
  intro x y hx0 hx hy0 hy
  obtain ⟨a, b, ha, hb, rfl, rfl⟩ := inBounds_cast x y hx0 hx hy0 hy
  obtain ⟨c, c2, hc, hc2, _, _, _, hal⟩ := hcells a b ha hb
  refine ⟨c, c2, ?_, ?_, ?_⟩
  · rw [gridToIndex_ofNat, getObj_ofNat, hc]
  · rw [gridToIndex_ofNat, getObj_ofNat, hc2]
  · simpa [nextState] using hal

theorem checkSurrounding_from_snapshot_witness :
    sampleWorld.gameObjects.length = numColumns * numRows ∧
    ∃ u, sampleWorld.checkSurrounding = some u ∧
      ∀ x y : Int, 0 ≤ x → x < numColumns → 0 ≤ y → y < numRows →
        ∃ c c2 : Cell, getObj sampleWorld.gameObjects (GameWorld.gridToIndex x y) = some c ∧
          getObj u.gameObjects (GameWorld.gridToIndex x y) = some c2 ∧
          c2.alive = (if liveNeighbours sampleWorld.gameObjects x y = 2 then c.alive
            else if liveNeighbours sampleWorld.gameObjects x y = 3 then some true
            else some false) :=
  ⟨construct_length sampleRnd,
    checkSurrounding_from_snapshot sampleWorld (construct_length sampleRnd)⟩

/-- C2 (the code at the failing input): for the out-of-bounds position `(-1, -1)`,
which `checkSurrounding()` itself passes for the cell `(0, 0)`, `isAlive` returns
the boolean `false` whatever the world is; that value is not the number `0`, it
only converts to `0` under `ToNumber`. -/
theorem isAlive_out_of_bounds_is_false :
    (∀ w : GameWorld, w.isAlive (-1) (-1) = some (JSVal.bool false)) ∧
    sampleWorld.isAlive (-1) (-1) ≠ some (JSVal.num 0) ∧
    (JSVal.bool false).toNumber = 0 := by
  have h : ∀ w : GameWorld, w.isAlive (-1) (-1) = some (JSVal.bool false) :=
    fun w => isAlive_outside w (-1) (-1) (Or.inl (by decide))
  refine ⟨h, ?_, rfl⟩
  rw [h]
  decide

/-- C3: on a collection of `numColumns * numRows` cells and for in-bounds `(x, y)`,
`isAlive(x, y)` returns the number `1` if the cell stored at index
`x + y * numColumns` is alive and the number `0` if it is not. -/
theorem isAlive_in_bounds (w : GameWorld) (x y : Int)
    (hlen : w.gameObjects.length = numColumns * numRows)
    (hx0 : 0 ≤ x) (hx : x < numColumns) (hy0 : 0 ≤ y) (hy : y < numRows) :
    ∃ c, getObj w.gameObjects (x + y * numColumns) = some c ∧
      (truthy c.alive = true → w.isAlive x y = some (JSVal.num 1)) ∧
      (truthy c.alive = false → w.isAlive x y = some (JSVal.num 0)) := by
  obtain ⟨c, hc, hv⟩ := isAlive_inside w x y hx0 hx hy0 hy hlen
  refine ⟨c, hc, ?_, ?_⟩
  · intro h; rw [hv, if_pos h]
  · intro h; rw [hv, if_neg (by simp [h])]

theorem isAlive_in_bounds_witness :
    sampleWorld.gameObjects.length = numColumns * numRows ∧
    ∃ c, getObj sampleWorld.gameObjects (3 + 2 * numColumns) = some c ∧
      (truthy c.alive = true → sampleWorld.isAlive 3 2 = some (JSVal.num 1)) ∧
      (truthy c.alive = false → sampleWorld.isAlive 3 2 = some (JSVal.num 0)) :=
  ⟨construct_length sampleRnd,
    isAlive_in_bounds sampleWorld 3 2 (construct_length sampleRnd)
      (by decide) (by decide) (by decide) (by decide)⟩

/-- C4: `createGrid()` on an empty collection leaves exactly
`numColumns * numRows = 3000` cells; every in-bounds pair `(x, y)` is the
`(gridX, gridY)` of the cell stored at index `x + y * numColumns`, and of no cell
at any other index. -/
theorem createGrid_on_empty (rnd : Int → Int → Bool) (w : GameWorld)
    (hw : w.gameObjects = []) :
    (GameWorld.createGrid rnd w).gameObjects.length = 3000 ∧
    ∀ x y : Int, 0 ≤ x → x < numColumns → 0 ≤ y → y < numRows →
      (∃ c, getObj (GameWorld.createGrid rnd w).gameObjects (GameWorld.gridToIndex x y) = some c ∧
        c.gridX = x ∧ c.gridY = y) ∧
      ∀ (i : Nat) (c : Cell), (GameWorld.createGrid rnd w).gameObjects[i]? = some c →
        c.gridX = x → c.gridY = y → (i : Int) = GameWorld.gridToIndex x y := by
  have hobjs : (GameWorld.createGrid rnd w).gameObjects = freshCells rnd := by
    rw [createGrid_eq, hw]; exact List.nil_append _
  rw [hobjs]
  refine ⟨by rw [freshCells_length, numCells_eq], ?_⟩
  intro x y hx0 hx hy0 hy
  obtain ⟨a, b, ha, hb, rfl, rfl⟩ := inBounds_cast x y hx0 hx hy0 hy
  constructor
  · obtain ⟨c, hc, hcx, hcy⟩ := (freshCells_rowMajor rnd).2 a b ha hb
    exact ⟨c, by rw [gridToIndex_ofNat, getObj_ofNat, hc], hcx, hcy⟩
  · intro i c hi hcx hcy
    have hlt : i < numColumns * numRows := by
      by_contra hcon
      rw [List.getElem?_eq_none_iff.2 (by rw [freshCells_length]; omega)] at hi
      exact Option.noConfusion hi
    rw [freshCells_get rnd i hlt] at hi
    have hc := (Option.some.inj hi).symm
    subst hc
    simp only [Cell.new] at hcx hcy
    have h1 : i % numColumns = a := by exact_mod_cast hcx
    have h2 : i / numColumns = b := by exact_mod_cast hcy
    rw [gridToIndex_ofNat]
    have : i = a + b * numColumns := by
      simp only [numColumns] at *; omega
    exact_mod_cast this

theorem createGrid_on_empty_witness :
    emptyWorld.gameObjects = [] ∧
    (GameWorld.createGrid sampleRnd emptyWorld).gameObjects.length = 3000 ∧
    ∀ x y : Int, 0 ≤ x → x < numColumns → 0 ≤ y → y < numRows →
      (∃ c, getObj (GameWorld.createGrid sampleRnd emptyWorld).gameObjects
          (GameWorld.gridToIndex x y) = some c ∧ c.gridX = x ∧ c.gridY = y) ∧
      ∀ (i : Nat) (c : Cell),
        (GameWorld.createGrid sampleRnd emptyWorld).gameObjects[i]? = some c →
        c.gridX = x → c.gridY = y → (i : Int) = GameWorld.gridToIndex x y :=
  ⟨rfl, createGrid_on_empty sampleRnd emptyWorld rfl⟩

/-- C5 (as stated, refuted): `createGrid()` called on the populated collection that
the constructor left does not replace it; afterwards there are 6000 cells, not
3000, and the prior collection is still there as the first 3000. -/
theorem createGrid_keeps_prior_cells :
    (GameWorld.createGrid (fun _ _ => true) sampleWorld).gameObjects.length = 6000 ∧
    (GameWorld.createGrid (fun _ _ => true) sampleWorld).gameObjects.length
      ≠ numColumns * numRows ∧
    sampleWorld.gameObjects.length = 3000 ∧
    sampleWorld.gameObjects <+:
      (GameWorld.createGrid (fun _ _ => true) sampleWorld).gameObjects := by
  have hl : sampleWorld.gameObjects.length = 3000 := by
    rw [sampleWorld, construct_length, numCells_eq]
  have hc : (GameWorld.createGrid (fun _ _ => true) sampleWorld).gameObjects.length = 6000 := by
    rw [createGrid_length, hl, numCells_eq]
  refine ⟨hc, ?_, hl, ?_⟩
  · rw [hc, numCells_eq]; decide
  · rw [createGrid_eq]
    exact List.prefix_append _ _

/-- C5 (amended): `createGrid()` appends. For every prior state the collection
afterwards is the prior collection, unchanged and in order, followed by
`numColumns * numRows` fresh cells in row-major order; the other fields are
untouched. -/
theorem createGrid_appends (rnd : Int → Int → Bool) (w : GameWorld) :
    (GameWorld.createGrid rnd w).gameObjects = w.gameObjects ++ freshCells rnd ∧
    (GameWorld.createGrid rnd w).gameObjects.length
      = w.gameObjects.length + numColumns * numRows ∧
    RowMajor (freshCells rnd) ∧
    (GameWorld.createGrid rnd w).nGenerations = w.nGenerations ∧
    (GameWorld.createGrid rnd w).animation = w.animation := by
  refine ⟨?_, createGrid_length rnd w, freshCells_rowMajor rnd, ?_, ?_⟩ <;>
    rw [createGrid_eq]

/-- C6: for every state, `reset()` yields generation counter `0` and a freshly
created collection of exactly `numColumns * numRows` cells in row-major order
(the one `createGrid()` builds from the empty collection), and leaves the
animation handle unchanged. -/
theorem reset_spec (rnd : Int → Int → Bool) (w : GameWorld) :
    (GameWorld.reset rnd w).nGenerations = 0 ∧
    (GameWorld.reset rnd w).gameObjects = (GameWorld.createGrid rnd emptyWorld).gameObjects ∧
    (GameWorld.reset rnd w).gameObjects = freshCells rnd ∧
    (GameWorld.reset rnd w).gameObjects.length = numColumns * numRows ∧
    RowMajor (GameWorld.reset rnd w).gameObjects ∧
    (GameWorld.reset rnd w).animation = w.animation := by
  have hobjs : (GameWorld.reset rnd w).gameObjects = freshCells rnd := by
    simp [GameWorld.reset, createGrid_eq]
  refine ⟨rfl, ?_, hobjs, ?_, ?_, ?_⟩
  · rw [hobjs, createGrid_eq]; exact (List.nil_append _).symm
  · rw [hobjs, freshCells_length]
  · rw [hobjs]; exact freshCells_rowMajor rnd
  · simp [GameWorld.reset, createGrid_eq]

theorem getD_of_exists (o : Option System) (d : System) (h : ∃ u, o = some u) :
    o = some (o.getD d) := by
  obtain ⟨u, hu⟩ := h
  rw [hu]
  rfl

theorem run_single (s : System) (a : Action) : s.run [a] = s.step a := by
  rw [run_cons]
  cases s.step a <;> rfl

theorem run_cons_some (s t : System) (a : Action) (as : List Action)
    (h : s.step a = some t) : s.run (a :: as) = t.run as := by
  rw [run_cons, h]
  rfl

theorem run_append (s : System) (as bs : List Action) :
    s.run (as ++ bs) = (s.run as).bind (fun t => t.run bs) := by
  simp [System.run, List.foldlM_append]

theorem step_frame_handle (s : System) (h : Nat) (hwf : WellFormed s)
    (hmem : h ∈ s.browser.frames) :
    ∃ u, s.step (Action.frame h) = some u ∧ WellFormed u ∧
      u.world.nGenerations = jsIncrement s.world.nGenerations ∧
      u.world.animation = s.world.animation ∧
      u.browser.events = s.browser.events ++ [jsIncrement s.world.nGenerations] ∧
      u.browser.frames = s.browser.frames.erase h ∧
      u.browser.timeouts = s.browser.timeouts + 1 ∧
      u.browser.nextHandle = s.browser.nextHandle := by
  obtain ⟨u, hu, h1, h2, h3, h4, h5, h6, h7⟩ := gameLoop_spec
    { s with browser := { s.browser with frames := s.browser.frames.erase h } } hwf
  exact ⟨u, by simp only [System.step, hmem, if_true]; exact hu, h1, h2, h3, h4, h5, h6, h7⟩

theorem jsIncrement_min (n : Nat) : jsIncrement (min n maxExact) = min (n + 1) maxExact := by
  by_cases h : n < maxExact
  · rw [Nat.min_eq_left (Nat.le_of_lt h), jsIncrement_lt n h, Nat.min_eq_left h]
  · rw [Nat.min_eq_right (by omega), jsIncrement_maxExact, Nat.min_eq_right (by omega)]

/-- After `start()` and `n` full cycles (a frame running `gameLoop()`, then its
timeout), one frame is pending, with handle `n + 1`, and the counter is
`min n (2 ^ 53)`. -/
theorem cycles_spec (rnd : Int → Int → Bool) (n : Nat) :
    ∃ s, (System.initial rnd).run (cycleActions n) = some s ∧ WellFormed s ∧
      s.browser.frames = [n + 1] ∧ s.world.animation = Handle.id (n + 1) ∧
      s.browser.timeouts = 0 ∧ s.browser.nextHandle = n + 2 ∧
      s.world.nGenerations = min n maxExact := by
  induction n with
  | zero =>
    refine ⟨(System.initial rnd).start, rfl, construct_length rnd, rfl, rfl, rfl, rfl, ?_⟩
    simp [System.start, System.initial, GameWorld.construct]
  | succ k ih =>
    obtain ⟨s, hs, hwf, hfr, han, hto, hnh, hg⟩ := ih
    obtain ⟨u, hu, hwfu, g1, a1, _, f1, t1, n1⟩ :=
      step_frame_handle s (k + 1) hwf (by rw [hfr]; simp)
    have hpos : 0 < u.browser.timeouts := by rw [t1]; omega
    have htr : u.world.animation.truthy = true := by
      rw [a1, han]
      simp [Handle.truthy]
    refine ⟨System.timeoutCallback
      { u with browser := { u.browser with timeouts := u.browser.timeouts - 1 } }, ?_, ?_, ?_,
      ?_, ?_, ?_, ?_⟩
    · simp only [cycleActions]
      rw [run_append, hs, Option.some_bind, run_cons_some _ _ _ _ hu, run_single]
      simp only [System.step, hpos, if_true]
    · simp only [System.timeoutCallback, htr, if_true]
      exact hwfu
    · simp only [System.timeoutCallback, htr, if_true, Browser.requestAnimationFrame, f1, hfr,
        n1, hnh]
      simp
    · simp only [System.timeoutCallback, htr, if_true, Browser.requestAnimationFrame, n1, hnh]
    · simp only [System.timeoutCallback, htr, if_true, Browser.requestAnimationFrame, t1, hto]
    · simp only [System.timeoutCallback, htr, if_true, Browser.requestAnimationFrame, n1, hnh]
    · simp only [System.timeoutCallback, htr, if_true]
      rw [g1, hg, jsIncrement_min]

theorem cycleActions_noReset (n : Nat) : ∀ a ∈ cycleActions n, a.isReset = false := by
  induction n with
  | zero =>
    intro a ha
    simp only [cycleActions, List.mem_singleton] at ha
    subst ha
    rfl
  | succ k ih =>
    intro a ha
    simp only [cycleActions, List.mem_append, List.mem_cons, List.mem_singleton,
      List.not_mem_nil, or_false] at ha
    rcases ha with ha | ha | ha
    · exact ih a ha
    · subst ha; rfl
    · subst ha; rfl

theorem cycleActions_countFrames (n : Nat) : countFrames (cycleActions n) = n := by
  induction n with
  | zero => rfl
  | succ k ih =>
    simp only [cycleActions, countFrames, List.countP_append] at ih ⊢
    rw [ih]
    rfl

theorem afterCycles_run (n : Nat) :
    (System.initial sampleRnd).run (cycleActions n) = some (afterCycles n) := by
  apply getD_of_exists
  obtain ⟨s, hs, _⟩ := cycles_spec sampleRnd n
  exact ⟨s, hs⟩

theorem afterCycles_frames (n : Nat) : (afterCycles n).browser.frames = [n + 1] := by
  obtain ⟨s, hs, _, hfr, _⟩ := cycles_spec sampleRnd n
  have h := afterCycles_run n
  rw [hs] at h
  rw [← Option.some.inj h]
  exact hfr

/-- C7 (as stated, refuted): after construction, `start()` and `2 ^ 53` full cycles,
the counter is `2 ^ 53`; the next execution of `gameLoop()`, the
`(2 ^ 53 + 1)`-th, leaves it at `2 ^ 53` and dispatches the payload `2 ^ 53`, not
`2 ^ 53 + 1`. -/
theorem gameLoop_counter_sticks :
    (∀ a ∈ cycleActions maxExact, a.isReset = false) ∧
    countFrames (cycleActions maxExact) = maxExact ∧
    (System.initial sampleRnd).run (cycleActions maxExact) = some (afterCycles maxExact) ∧
    (maxExact + 1) ∈ (afterCycles maxExact).browser.frames ∧
    ∃ s2, (afterCycles maxExact).step (Action.frame (maxExact + 1)) = some s2 ∧
      s2.world.nGenerations = maxExact ∧
      s2.world.nGenerations ≠ countFrames (cycleActions maxExact) + 1 ∧
      s2.browser.events = (afterCycles maxExact).browser.events ++ [maxExact] := by
  obtain ⟨s, hs, hwf, hfr, _, _, _, hg⟩ := cycles_spec sampleRnd maxExact
  have h := afterCycles_run maxExact
  rw [hs] at h
  have he : afterCycles maxExact = s := (Option.some.inj h).symm
  rw [he]
  have hmem : (maxExact + 1) ∈ s.browser.frames := by
    rw [hfr]; exact List.mem_singleton.2 rfl
  obtain ⟨s2, hs2, _, g2, _, e2, _⟩ := step_frame_spec s (maxExact + 1) hwf hmem
  rw [hg, Nat.min_self, jsIncrement_maxExact] at g2 e2
  refine ⟨cycleActions_noReset _, cycleActions_countFrames _, hs, hmem, s2, hs2, g2, ?_, e2⟩
  rw [g2, cycleActions_countFrames]
  exact Nat.ne_of_lt (Nat.lt_succ_self _)

/-- C7 (amended): let `s0` be a state right after construction or `reset()` (counter
`0`, `numColumns * numRows` cells) and `as` the actions since then, none of them
a `reset()`, with `k - 1` executions of `gameLoop()` among them, where
`k ≤ 2 ^ 53`. Then the next, `k`-th, execution of `gameLoop()` returns, sets the
generation counter to `k` and dispatches exactly one event, of payload `k`; the
payloads so far are `1, 2, ..., k - 1` in order. -/
theorem gameLoop_kth (s0 s1 : System) (as : List Action) (h : Nat)
    (hlen : s0.world.gameObjects.length = numColumns * numRows)
    (hgen : s0.world.nGenerations = 0)
    (hr : ∀ a ∈ as, a.isReset = false)
    (hk : countFrames as + 1 ≤ maxExact)
    (hrun : s0.run as = some s1) (hmem : h ∈ s1.browser.frames) :
    ∃ s2, s1.step (Action.frame h) = some s2 ∧
      s2.world.nGenerations = countFrames as + 1 ∧
      s2.browser.events = s1.browser.events ++ [countFrames as + 1] ∧
      s1.browser.events = s0.browser.events ++ List.range' 1 (countFrames as) := by
  obtain ⟨h1, h2⟩ := run_counts as s0 s1 hlen hr (by rw [hgen]; omega) hrun
  obtain ⟨s2, hs2, _, h3, _, h4, _⟩ :=
    step_frame_spec s1 h (run_wellFormed as s0 s1 hlen hrun) hmem
  rw [hgen, Nat.zero_add] at h1 h2
  have hinc : jsIncrement s1.world.nGenerations = countFrames as + 1 := by
    rw [h1]
    exact jsIncrement_lt _ (by omega)
  rw [hinc] at h3 h4
  exact ⟨s2, hs2, h3, h4, h2⟩

theorem gameLoop_kth_witness :
    (System.initial sampleRnd).world.gameObjects.length = numColumns * numRows ∧
    (System.initial sampleRnd).world.nGenerations = 0 ∧
    (∀ a ∈ cycleActions 2, a.isReset = false) ∧
    countFrames (cycleActions 2) + 1 ≤ maxExact ∧
    (System.initial sampleRnd).run (cycleActions 2) = some (afterCycles 2) ∧
    3 ∈ (afterCycles 2).browser.frames ∧
    ∃ s2, (afterCycles 2).step (Action.frame 3) = some s2 ∧
      s2.world.nGenerations = countFrames (cycleActions 2) + 1 ∧
      s2.browser.events
        = (afterCycles 2).browser.events ++ [countFrames (cycleActions 2) + 1] ∧
      (afterCycles 2).browser.events
        = (System.initial sampleRnd).browser.events
          ++ List.range' 1 (countFrames (cycleActions 2)) :=
  have hmem : 3 ∈ (afterCycles 2).browser.frames := by
    rw [afterCycles_frames]; simp
  ⟨construct_length sampleRnd, rfl, cycleActions_noReset 2, by decide, afterCycles_run 2, hmem,
    gameLoop_kth (System.initial sampleRnd) (afterCycles 2) (cycleActions 2) 3
      (construct_length sampleRnd) rfl (cycleActions_noReset 2) (by decide) (afterCycles_run 2)
      hmem⟩

theorem afterFirstFrame_run :
    (System.initial sampleRnd).start.run [Action.frame 1] = some afterFirstFrame := by
  apply getD_of_exists
  rw [run_single]
  obtain ⟨u, hu, _⟩ := step_frame_spec (System.initial sampleRnd).start 1
    (construct_length sampleRnd)
    (by simp [System.start, System.initial, Browser.requestAnimationFrame])
  exact ⟨u, hu⟩

theorem afterStopTimeout_run :
    afterFirstFrame.stop.run [Action.timeout] = some afterStopTimeout := by
  apply getD_of_exists
  rw [run_single]
  have hrun := afterFirstFrame_run
  rw [run_single] at hrun
  obtain ⟨u, hu, _, _, _, _, _, ht⟩ := step_frame_spec (System.initial sampleRnd).start 1
    (construct_length sampleRnd)
    (by simp [System.start, System.initial, Browser.requestAnimationFrame])
  rw [hu] at hrun
  have he : u = afterFirstFrame := Option.some.inj hrun
  have hpos : 0 < afterFirstFrame.stop.browser.timeouts := by
    rw [← he]
    simp only [System.stop, cancel_timeouts, ht]
    omega
  simp only [System.step, hpos, if_true]
  exact ⟨_, rfl⟩

/-- C8 (as stated, refuted): after construction, `start()` twice in a row leaves two
pending executions of `gameLoop()` (handles `1` and `2`); both run before any
timeout has fired, so a single scheduling interval sees the two notifications
`1` and `2`, and two timeouts are then pending: two chains. -/
theorem start_twice_two_chains :
    (System.initial sampleRnd).start.start.browser.frames = [1, 2] ∧
    ∃ s, (System.initial sampleRnd).run
        [Action.start, Action.start, Action.frame 1, Action.frame 2] = some s ∧
      s.browser.events = [1, 2] ∧ s.browser.timeouts = 2 := by
  have hfr : (System.initial sampleRnd).start.start.browser.frames = [1, 2] := rfl
  have hwf : WellFormed (System.initial sampleRnd).start.start := construct_length sampleRnd
  obtain ⟨u1, hu1, hwf1, g1, _, e1, f1, t1⟩ :=
    step_frame_spec (System.initial sampleRnd).start.start 1 hwf (by rw [hfr]; simp)
  have hf1 : u1.browser.frames = [2] := by rw [f1, hfr]; rfl
  obtain ⟨u2, hu2, _, _, _, e2, _, t2⟩ := step_frame_spec u1 2 hwf1 (by rw [hf1]; simp)
  refine ⟨hfr, u2, ?_, ?_, ?_⟩
  · have hs1 : (System.initial sampleRnd).step Action.start
        = some (System.initial sampleRnd).start := rfl
    have hs2 : (System.initial sampleRnd).start.step Action.start
        = some (System.initial sampleRnd).start.start := rfl
    rw [run_cons_some _ _ _ _ hs1, run_cons_some _ _ _ _ hs2, run_cons_some _ _ _ _ hu1,
      run_single]
    exact hu2
  · rw [e2, e1, g1]
    rfl
  · rw [t2, t1]
    rfl

/-- C8 (amended): `start()` is not idempotent. Every call registers one more
pending execution of `gameLoop()` and cancels none, so two calls in a row leave
two more chains than before, whatever the state; they change neither the cells
nor the generation counter. While `this.animation` is truthy, every callback that
fires leaves exactly one successor, so the number of chains is kept. -/
theorem start_adds_chain (s : System) :
    s.start.browser.frames = s.browser.frames ++ [s.browser.nextHandle] ∧
    s.start.start.browser.frames
      = s.browser.frames ++ [s.browser.nextHandle, s.browser.nextHandle + 1] ∧
    chains s.start = chains s + 1 ∧
    chains s.start.start = chains s + 2 ∧
    s.start.start.world.gameObjects = s.world.gameObjects ∧
    s.start.start.world.nGenerations = s.world.nGenerations ∧
    (∀ h u, WellFormed s → s.step (Action.frame h) = some u → chains u = chains s) ∧
    (∀ u, s.world.animation.truthy = true → s.step Action.timeout = some u →
      chains u = chains s) := by
  refine ⟨rfl, ?_, ?_, ?_, rfl, rfl, ?_, ?_⟩
  · simp [System.start, Browser.requestAnimationFrame]
  · simp only [chains, System.start, Browser.requestAnimationFrame, List.length_append,
      List.length_singleton]
    omega
  · simp only [chains, System.start, Browser.requestAnimationFrame, List.length_append,
      List.length_singleton]
    omega
  · intro h u hwf hu
    exact chains_step_frame s u h hwf hu
  · intro u ht hu
    exact chains_step_timeout s u ht hu

/-- Where `stop()` does end the loop: take a state `s0` with `numColumns * numRows`
cells and nothing pending (as after construction), call `start()`, let any sequence `pre` of callbacks (and
`reset()`s) run, call `stop()`, then let any sequence `post` without `start()`
run. Then `stop()` leaves no frame pending, `post` contains no execution of
`gameLoop()`, no frame is pending at the end (a timeout that fired declined to
schedule one, so no execution of `gameLoop()` can follow), and no event was
dispatched after `stop()`. -/
theorem stop_halts (s0 : System) (pre post : List Action) (s1 s3 : System)
    (hlen : s0.world.gameObjects.length = numColumns * numRows)
    (hf : s0.browser.frames = []) (ht : s0.browser.timeouts = 0)
    (hpre : ∀ a ∈ pre, a.isStart = false ∧ a.isStop = false)
    (hrun : s0.start.run pre = some s1)
    (hpost : ∀ a ∈ post, a.isStart = false)
    (hrun2 : s1.stop.run post = some s3) :
    s1.stop.browser.frames = [] ∧
    countFrames post = 0 ∧
    s3.browser.frames = [] ∧
    (∀ h, s3.step (Action.frame h) = none) ∧
    s3.browser.events = s1.browser.events := by
  have hwf : WellFormed s0.start := hlen
  have hc1 : OneChain s1 :=
    oneChain_run pre _ s1 hwf (oneChain_start s0 hf ht) hpre hrun
  have hh : Halted s1.stop := halted_stop s1 hc1
  obtain ⟨h3, hcount, hev⟩ := halted_run post s1.stop s3 hh hpost hrun2
  refine ⟨hh.1, hcount, h3.1, ?_, ?_⟩
  · intro h
    simp [System.step, h3.1]
  · rw [hev]
    exact cancel_events _ _

theorem stop_halts_witness :
    (System.initial sampleRnd).world.gameObjects.length = numColumns * numRows ∧
    (System.initial sampleRnd).browser.frames = [] ∧
    (System.initial sampleRnd).browser.timeouts = 0 ∧
    (∀ a ∈ [Action.frame 1], a.isStart = false ∧ a.isStop = false) ∧
    (System.initial sampleRnd).start.run [Action.frame 1] = some afterFirstFrame ∧
    (∀ a ∈ [Action.timeout], a.isStart = false) ∧
    afterFirstFrame.stop.run [Action.timeout] = some afterStopTimeout ∧
    afterFirstFrame.stop.browser.frames = [] ∧
    countFrames [Action.timeout] = 0 ∧
    afterStopTimeout.browser.frames = [] ∧
    (∀ h, afterStopTimeout.step (Action.frame h) = none) ∧
    afterStopTimeout.browser.events = afterFirstFrame.browser.events :=
  have hpre : ∀ a ∈ [Action.frame 1], a.isStart = false ∧ a.isStop = false := by
    intro a ha
    rw [List.mem_singleton] at ha
    subst ha
    exact ⟨rfl, rfl⟩
  have hpost : ∀ a ∈ [Action.timeout], a.isStart = false := by
    intro a ha
    rw [List.mem_singleton] at ha
    subst ha
    rfl
  ⟨construct_length sampleRnd, rfl, rfl, hpre, afterFirstFrame_run, hpost, afterStopTimeout_run,
    stop_halts (System.initial sampleRnd) [Action.frame 1] [Action.timeout] afterFirstFrame
      afterStopTimeout (construct_length sampleRnd) rfl rfl hpre afterFirstFrame_run hpost
      afterStopTimeout_run⟩

/-! ## The glider -/

theorem inWindow_mem (P : List (Int × Int)) (h : inWindow P = true) (a b : Int)
    (hm : (a, b) ∈ P) : 0 ≤ a ∧ a ≤ 3 ∧ 0 ≤ b ∧ b ≤ 3 := by
  have := List.all_eq_true.1 h (a, b) hm
  simpa using this

theorem nbrCount_outside (P : List (Int × Int)) (h : inWindow P = true) (a b : Int)
    (hout : ¬ (-1 ≤ a ∧ a ≤ 4 ∧ -1 ≤ b ∧ b ≤ 4)) : nbrCount P a b = 0 := by
  unfold nbrCount
  rw [List.countP_eq_zero]
  intro d hd
  simp only [neighbourOffsets, List.mem_cons, List.mem_singleton, List.not_mem_nil,
    or_false] at hd
  simp only [decide_eq_true_eq]
  intro hm
  have hw := inWindow_mem P h _ _ hm
  rcases hd with rfl | rfl | rfl | rfl | rfl | rfl | rfl | rfl <;> simp only at hw <;> omega

/-- A pattern in the window `[0, 3] × [0, 3]` whose next generation, checked on the
window `[-1, 4] × [-1, 4]`, is `Q`, has next generation `Q` on the whole plane. -/
theorem stepsTo_sound (P Q : List (Int × Int)) (hP : inWindow P = true)
    (hQ : inWindow Q = true) (hs : stepsTo P Q = true) (a b : Int) :
    lifeRule (decide ((a, b) ∈ P)) (nbrCount P a b) = decide ((a, b) ∈ Q) := by
  by_cases hin : -1 ≤ a ∧ a ≤ 4 ∧ -1 ≤ b ∧ b ≤ 4
  · have h1 := List.all_eq_true.1 hs (a + 1).toNat (List.mem_range.2 (by omega))
    have h2 := List.all_eq_true.1 h1 (b + 1).toNat (List.mem_range.2 (by omega))
    have ha : (((a + 1).toNat : Nat) : Int) - 1 = a := by omega
    have hb : (((b + 1).toNat : Nat) : Int) - 1 = b := by omega
    rw [ha, hb] at h2
    exact beq_iff_eq.1 h2
  · have hnP : (a, b) ∉ P := fun hm => hin (by have := inWindow_mem P hP a b hm; omega)
    have hnQ : (a, b) ∉ Q := fun hm => hin (by have := inWindow_mem Q hQ a b hm; omega)
    rw [nbrCount_outside P hP a b hin]
    simp [lifeRule, hnP, hnQ]

theorem truthy_nextState (alive : Option Bool) (n : Nat) :
    truthy (nextState alive n) = lifeRule (truthy alive) n := by
  unfold nextState lifeRule
  by_cases h2 : n = 2
  · simp [h2]
  · by_cases h3 : n = 3
    · simp [h3, truthy]
    · simp [h2, h3, truthy]

theorem aliveAt_inside (objs : List Cell) (a b : Nat) (ha : a < numColumns) (hb : b < numRows)
    (c : Cell) (hc : objs[a + b * numColumns]? = some c) :
    aliveAt objs a b = truthy c.alive := by
  have hd : 0 ≤ (a : Int) ∧ (a : Int) < numColumns ∧ 0 ≤ (b : Int) ∧ (b : Int) < numRows := by
    omega
  have hidx : ((a : Int) + (b : Int) * (numColumns : Int)) = ((a + b * numColumns : Nat) : Int) := by
    simp
  simp only [aliveAt, hd, hidx, getObj_ofNat, hc]
  simp

theorem aliveAt_outside (objs : List Cell) (x y : Int)
    (h : ¬ (0 ≤ x ∧ x < numColumns ∧ 0 ≤ y ∧ y < numRows)) : aliveAt objs x y = false := by
  simp [aliveAt, h]

/-- One call of `checkSurrounding()` on a grid that shows the pattern `P` at the
offset `(ox, oy)` yields the grid that shows its next generation `Q` there,
provided `Q` stays inside the grid. -/
theorem checkSurrounding_pattern (w : GameWorld) (P Q : List (Int × Int)) (ox oy : Int)
    (hlen : w.gameObjects.length = numColumns * numRows)
    (hP : ∀ x y : Int, aliveAt w.gameObjects x y = decide ((x - ox, y - oy) ∈ P))
    (hPQ : ∀ a b : Int, lifeRule (decide ((a, b) ∈ P)) (nbrCount P a b) = decide ((a, b) ∈ Q))
    (hQ : ∀ a b : Int, (a, b) ∈ Q →
      0 ≤ a + ox ∧ a + ox < numColumns ∧ 0 ≤ b + oy ∧ b + oy < numRows) :
    ∃ u, w.checkSurrounding = some u ∧ u.gameObjects.length = numColumns * numRows ∧
      ∀ x y : Int, aliveAt u.gameObjects x y = decide ((x - ox, y - oy) ∈ Q) := by
  obtain ⟨u, hu, _, _, hl, hcells⟩ := checkSurrounding_spec w hlen
  refine ⟨u, hu, by rw [hl, hlen], ?_⟩
  intro x y
  by_cases hd : 0 ≤ x ∧ x < numColumns ∧ 0 ≤ y ∧ y < numRows
  · obtain ⟨a, b, ha, hb, rfl, rfl⟩ := inBounds_cast x y hd.1 hd.2.1 hd.2.2.1 hd.2.2.2
    obtain ⟨c, c2, hc, hc2, _, _, _, hal⟩ := hcells a b ha hb
    rw [aliveAt_inside u.gameObjects a b ha hb c2 hc2, hal, truthy_nextState,
      ← aliveAt_inside w.gameObjects a b ha hb c hc, hP, ← hPQ]
    congr 1
    unfold liveNeighbours nbrCount
    congr 1
    funext d
    rw [hP]
    have e1 : (a : Int) + d.1 - ox = (a : Int) - ox + d.1 := by ring
    have e2 : (b : Int) + d.2 - oy = (b : Int) - oy + d.2 := by ring
    rw [e1, e2]
  · rw [aliveAt_outside _ x y hd]
    symm
    rw [decide_eq_false_iff_not]
    intro hm
    have := hQ _ _ hm
    omega

theorem mem_gliderAt (ox oy x y : Int) :
    (x, y) ∈ gliderAt ox oy ↔ (x - ox, y - oy) ∈ gliderPhase 0 := by
  simp only [gliderAt, gliderPhase, List.mem_cons, Prod.mk.injEq, List.mem_singleton,
    List.not_mem_nil, or_false]
  omega

theorem mem_gliderAt_succ (ox oy x y : Int) :
    (x, y) ∈ gliderAt (ox + 1) (oy + 1) ↔ (x - ox, y - oy) ∈ gliderPhase 4 := by
  simp only [gliderAt, gliderPhase, List.mem_cons, Prod.mk.injEq, List.mem_singleton,
    List.not_mem_nil, or_false]
  omega

theorem gliderPhase_inWindow (k : Nat) : inWindow (gliderPhase k) = true := by
  match k with
  | 0 => decide
  | 1 => decide
  | 2 => decide
  | 3 => decide
  | (n + 4) => exact (by decide : inWindow (gliderPhase 4) = true)

theorem gliderPhase_stepsTo (k : Nat) (hk : k < 4) :
    stepsTo (gliderPhase k) (gliderPhase (k + 1)) = true := by
  match k, hk with
  | 0, _ => decide
  | 1, _ => decide
  | 2, _ => decide
  | 3, _ => decide

theorem gliderPhase_inGrid (k : Nat) (ox oy : Int) (hox : 1 ≤ ox)
    (hox2 : ox + 4 ≤ (numColumns : Int) - 1) (hoy : 1 ≤ oy)
    (hoy2 : oy + 4 ≤ (numRows : Int) - 1) (a b : Int) (hm : (a, b) ∈ gliderPhase k) :
    0 ≤ a + ox ∧ a + ox < numColumns ∧ 0 ≤ b + oy ∧ b + oy < numRows := by
  have := inWindow_mem _ (gliderPhase_inWindow k) a b hm
  omega

theorem gliderWorld_length : gliderWorld.gameObjects.length = numColumns * numRows := by
  simp [gliderWorld]

theorem gliderWorld_alive (x y : Int) (hx0 : 0 ≤ x) (hx : x < numColumns) (hy0 : 0 ≤ y)
    (hy : y < numRows) :
    aliveAt gliderWorld.gameObjects x y = true ↔ (x, y) ∈ gliderAt 1 1 := by
  obtain ⟨a, b, ha, hb, rfl, rfl⟩ := inBounds_cast x y hx0 hx hy0 hy
  have hi := index_lt a b ha hb
  have h1 : (a + b * numColumns) % numColumns = a := by
    simp only [numColumns] at *; omega
  have h2 : (a + b * numColumns) / numColumns = b := by
    simp only [numColumns] at *; omega
  have hget : gliderWorld.gameObjects[a + b * numColumns]?
      = some { gridX := (a : Int), gridY := (b : Int),
               alive := some (decide (((a : Int), (b : Int)) ∈ gliderAt 1 1)),
               nextAlive := none } := by
    simp only [gliderWorld, List.getElem?_map, List.getElem?_range hi, Option.map_some', h1, h2]
  rw [aliveAt_inside _ a b ha hb _ hget]
  by_cases hm : ((a : Int), (b : Int)) ∈ gliderAt 1 1
  · simp [hm, truthy]
  · simp [hm, truthy]

/-- One generation of the glider, from phase `k` to phase `k + 1`. -/
theorem checkSurrounding_glider (k : Nat) (hk : k < 4) (w : GameWorld) (ox oy : Int)
    (hox : 1 ≤ ox) (hox2 : ox + 4 ≤ (numColumns : Int) - 1) (hoy : 1 ≤ oy)
    (hoy2 : oy + 4 ≤ (numRows : Int) - 1)
    (hlen : w.gameObjects.length = numColumns * numRows)
    (hP : ∀ x y : Int, aliveAt w.gameObjects x y = decide ((x - ox, y - oy) ∈ gliderPhase k)) :
    ∃ u, w.checkSurrounding = some u ∧ u.gameObjects.length = numColumns * numRows ∧
      ∀ x y : Int, aliveAt u.gameObjects x y
        = decide ((x - ox, y - oy) ∈ gliderPhase (k + 1)) :=
  checkSurrounding_pattern w (gliderPhase k) (gliderPhase (k + 1)) ox oy hlen hP
    (stepsTo_sound _ _ (gliderPhase_inWindow k) (gliderPhase_inWindow (k + 1))
      (gliderPhase_stepsTo k hk))
    (gliderPhase_inGrid (k + 1) ox oy hox hox2 hoy hoy2)

/-- C10: for every offset `(ox, oy)` with `1 ≤ ox`, `ox + 4 ≤ numColumns - 1`,
`1 ≤ oy`, `oy + 4 ≤ numRows - 1`, on a grid whose alive cells are exactly the
glider at `(ox, oy)`, four consecutive calls of `checkSurrounding()` return and
leave the grid whose alive cells are exactly the glider at `(ox + 1, oy + 1)`. -/
theorem glider_four_steps (w : GameWorld) (ox oy : Int)
    (hox : 1 ≤ ox) (hox2 : ox + 4 ≤ (numColumns : Int) - 1)
    (hoy : 1 ≤ oy) (hoy2 : oy + 4 ≤ (numRows : Int) - 1)
    (hlen : w.gameObjects.length = numColumns * numRows)
    (hg : ∀ x y : Int, 0 ≤ x → x < numColumns → 0 ≤ y → y < numRows →
      (aliveAt w.gameObjects x y = true ↔ (x, y) ∈ gliderAt ox oy)) :
    ∃ u, ((w.checkSurrounding.bind GameWorld.checkSurrounding).bind
        GameWorld.checkSurrounding).bind GameWorld.checkSurrounding = some u ∧
      u.gameObjects.length = numColumns * numRows ∧
      ∀ x y : Int, 0 ≤ x → x < numColumns → 0 ≤ y → y < numRows →
        (aliveAt u.gameObjects x y = true ↔ (x, y) ∈ gliderAt (ox + 1) (oy + 1)) := by
  have h0 : ∀ x y : Int,
      aliveAt w.gameObjects x y = decide ((x - ox, y - oy) ∈ gliderPhase 0) := by
    intro x y
    by_cases hd : 0 ≤ x ∧ x < numColumns ∧ 0 ≤ y ∧ y < numRows
    · rw [Bool.eq_iff_iff, hg x y hd.1 hd.2.1 hd.2.2.1 hd.2.2.2, mem_gliderAt]
      simp
    · rw [aliveAt_outside _ x y hd]
      symm
      rw [decide_eq_false_iff_not]
      intro hm
      have := gliderPhase_inGrid 0 ox oy hox hox2 hoy hoy2 _ _ hm
      omega
  obtain ⟨u1, hu1, hl1, h1⟩ :=
    checkSurrounding_glider 0 (by decide) w ox oy hox hox2 hoy hoy2 hlen h0
  obtain ⟨u2, hu2, hl2, h2⟩ :=
    checkSurrounding_glider 1 (by decide) u1 ox oy hox hox2 hoy hoy2 hl1 h1
  obtain ⟨u3, hu3, hl3, h3⟩ :=
    checkSurrounding_glider 2 (by decide) u2 ox oy hox hox2 hoy hoy2 hl2 h2
  obtain ⟨u4, hu4, hl4, h4⟩ :=
    checkSurrounding_glider 3 (by decide) u3 ox oy hox hox2 hoy hoy2 hl3 h3
  refine ⟨u4, ?_, hl4, ?_⟩
  · rw [hu1, Option.some_bind, hu2, Option.some_bind, hu3, Option.some_bind, hu4]
  · intro x y _ _ _ _
    rw [h4 x y, mem_gliderAt_succ]
    simp

theorem glider_four_steps_witness :
    (1 : Int) ≤ 1 ∧ (1 : Int) + 4 ≤ (numColumns : Int) - 1 ∧
    (1 : Int) ≤ 1 ∧ (1 : Int) + 4 ≤ (numRows : Int) - 1 ∧
    gliderWorld.gameObjects.length = numColumns * numRows ∧
    (∀ x y : Int, 0 ≤ x → x < numColumns → 0 ≤ y → y < numRows →
      (aliveAt gliderWorld.gameObjects x y = true ↔ (x, y) ∈ gliderAt 1 1)) ∧
    ∃ u, ((gliderWorld.checkSurrounding.bind GameWorld.checkSurrounding).bind
        GameWorld.checkSurrounding).bind GameWorld.checkSurrounding = some u ∧
      u.gameObjects.length = numColumns * numRows ∧
      ∀ x y : Int, 0 ≤ x → x < numColumns → 0 ≤ y → y < numRows →
        (aliveAt u.gameObjects x y = true ↔ (x, y) ∈ gliderAt (1 + 1) (1 + 1)) :=
  ⟨by decide, by decide, by decide, by decide, gliderWorld_length, gliderWorld_alive,
    glider_four_steps gliderWorld 1 1 (by decide) (by decide) (by decide) (by decide)
      gliderWorld_length gliderWorld_alive⟩

/-! ## Further consequences of the specification of `checkSurrounding` -/

theorem liveNeighbours_le (objs : List Cell) (x y : Int) : liveNeighbours objs x y ≤ 8 :=
  List.countP_le_length _

/-- The specification of `checkSurrounding()` by index: the cell of index `i` is
the cell `(i % numColumns, i / numColumns)`. -/
theorem checkSurrounding_spec_idx (w : GameWorld)
    (hlen : w.gameObjects.length = numColumns * numRows) :
    ∃ u, w.checkSurrounding = some u ∧
      u.nGenerations = w.nGenerations ∧ u.animation = w.animation ∧
      u.gameObjects.length = w.gameObjects.length ∧
      ∀ i : Nat, i < numColumns * numRows →
        ∃ c c2 : Cell, w.gameObjects[i]? = some c ∧ u.gameObjects[i]? = some c2 ∧
          c2.gridX = c.gridX ∧ c2.gridY = c.gridY ∧
          c2.nextAlive = nextState c.alive
            (liveNeighbours w.gameObjects ((i % numColumns : Nat) : Int)
              ((i / numColumns : Nat) : Int)) ∧
          c2.alive = c2.nextAlive := by
  obtain ⟨u, hu, h1, h2, h3, hcells⟩ := checkSurrounding_spec w hlen
  refine ⟨u, hu, h1, h2, h3, ?_⟩
  intro i hi
  have ha : i % numColumns < numColumns := by
    simp only [numColumns]; omega
  have hb : i / numColumns < numRows := by
    simp only [numColumns, numRows] at *; omega
  have hidx : i % numColumns + i / numColumns * numColumns = i := by
    simp only [numColumns]; omega
  obtain ⟨c, c2, hc, hc2, hx, hy, hn, hal⟩ := hcells (i % numColumns) (i / numColumns) ha hb
  rw [hidx] at hc hc2
  exact ⟨c, c2, hc, hc2, hx, hy, hn, by rw [hal, hn]⟩

/-- C11: on a collection of `numColumns * numRows` cells, for every in-bounds cell
whose state before the call is the boolean `b` and whose number of alive
neighbours is `n` (always at most 8), the state committed by `checkSurrounding()`
is the boolean `(n == 3) or (b and n == 2)` of the rule B3/S23: a dead cell
becomes alive iff `n = 3`, an alive cell stays alive iff `n` is `2` or `3`. -/
theorem checkSurrounding_b3s23 (w : GameWorld) (x y : Int) (c : Cell) (b : Bool)
    (hlen : w.gameObjects.length = numColumns * numRows)
    (hx0 : 0 ≤ x) (hx : x < numColumns) (hy0 : 0 ≤ y) (hy : y < numRows)
    (hc : getObj w.gameObjects (GameWorld.gridToIndex x y) = some c)
    (hb : c.alive = some b) :
    ∃ u c2, w.checkSurrounding = some u ∧
      getObj u.gameObjects (GameWorld.gridToIndex x y) = some c2 ∧
      liveNeighbours w.gameObjects x y ≤ 8 ∧
      c2.alive = some (b3s23 b (liveNeighbours w.gameObjects x y)) ∧
      (b = false → (c2.alive = some true ↔ liveNeighbours w.gameObjects x y = 3)) ∧
      (b = true → (c2.alive = some true ↔
        (liveNeighbours w.gameObjects x y = 2 ∨ liveNeighbours w.gameObjects x y = 3))) := by
  obtain ⟨u, hu, _, _, _, hcells⟩ := checkSurrounding_spec w hlen
  obtain ⟨a, d, ha, hd, rfl, rfl⟩ := inBounds_cast x y hx0 hx hy0 hy
  obtain ⟨c1, c2, hc1, hc2, _, _, _, hal⟩ := hcells a d ha hd
  rw [gridToIndex_ofNat, getObj_ofNat, hc1] at hc
  have hcc : c1 = c := Option.some.inj hc
  subst hcc
  have hval : c2.alive = some (b3s23 b (liveNeighbours w.gameObjects a d)) := by
    rw [hal, hb]
    unfold nextState b3s23
    by_cases h2 : liveNeighbours w.gameObjects a d = 2
    · simp [h2]
    · by_cases h3 : liveNeighbours w.gameObjects a d = 3
      · simp [h3]
      · simp [h2, h3]
  refine ⟨u, c2, hu, by rw [gridToIndex_ofNat, getObj_ofNat, hc2], liveNeighbours_le _ _ _,
    hval, ?_, ?_⟩
  · intro hbf
    rw [hval, hbf]
    simp [b3s23]
  · intro hbt
    rw [hval, hbt]
    simp only [b3s23, Option.some.injEq, Bool.true_and, Bool.or_eq_true, decide_eq_true_eq]
    exact or_comm

theorem checkSurrounding_b3s23_witness :
    sampleWorld.gameObjects.length = numColumns * numRows ∧
    (0 : Int) ≤ 0 ∧ (0 : Int) < numColumns ∧ (0 : Int) ≤ 0 ∧ (0 : Int) < numRows ∧
    getObj sampleWorld.gameObjects (GameWorld.gridToIndex 0 0) = some (cellOfIndex sampleRnd 0) ∧
    (cellOfIndex sampleRnd 0).alive = some true ∧
    ∃ u c2, sampleWorld.checkSurrounding = some u ∧
      getObj u.gameObjects (GameWorld.gridToIndex 0 0) = some c2 ∧
      liveNeighbours sampleWorld.gameObjects 0 0 ≤ 8 ∧
      c2.alive = some (b3s23 true (liveNeighbours sampleWorld.gameObjects 0 0)) ∧
      (true = false → (c2.alive = some true ↔ liveNeighbours sampleWorld.gameObjects 0 0 = 3)) ∧
      (true = true → (c2.alive = some true ↔
        (liveNeighbours sampleWorld.gameObjects 0 0 = 2 ∨
          liveNeighbours sampleWorld.gameObjects 0 0 = 3))) :=
  have hget : getObj sampleWorld.gameObjects (GameWorld.gridToIndex 0 0)
      = some (cellOfIndex sampleRnd 0) := by
    have h := freshCells_get sampleRnd 0 (by decide)
    rw [sampleWorld, construct_objects]
    exact h
  ⟨construct_length sampleRnd, by decide, by decide, by decide, by decide, hget, by decide,
    checkSurrounding_b3s23 sampleWorld 0 0 (cellOfIndex sampleRnd 0) true
      (construct_length sampleRnd) (by decide) (by decide) (by decide) (by decide) hget
      (by decide)⟩

theorem gameLoop_of_check (s : System) (w1 : GameWorld)
    (h : s.world.checkSurrounding = some w1) :
    s.gameLoop = some
      ⟨⟨w1.gameObjects, jsIncrement w1.nGenerations, w1.animation⟩,
        ⟨s.browser.frames, s.browser.timeouts + 1, s.browser.nextHandle,
          s.browser.events ++ [jsIncrement w1.nGenerations]⟩⟩ := by
  simp only [System.gameLoop, h, Option.bind_eq_bind, Option.some_bind]

theorem rowMajor_checkSurrounding (w : GameWorld) (h : RowMajor w.gameObjects) :
    ∃ u, w.checkSurrounding = some u ∧ RowMajor u.gameObjects := by
  obtain ⟨u, hu, _, _, hl, hcells⟩ := checkSurrounding_spec w h.1
  refine ⟨u, hu, by rw [hl]; exact h.1, ?_⟩
  intro x y hx hy
  obtain ⟨c, c2, hc, hc2, hgx, hgy, _⟩ := hcells x y hx hy
  obtain ⟨c0, hc0, hx0, hy0⟩ := h.2 x y hx hy
  have hcc : c0 = c := by rw [hc] at hc0; exact (Option.some.inj hc0).symm
  subst hcc
  exact ⟨c2, hc2, by rw [hgx, hx0], by rw [hgy, hy0]⟩

theorem rowMajor_gameLoop (s : System) (h : RowMajor s.world.gameObjects) :
    ∃ u, s.gameLoop = some u ∧ RowMajor u.world.gameObjects := by
  obtain ⟨w1, hw1, hr⟩ := rowMajor_checkSurrounding s.world h
  exact ⟨_, gameLoop_of_check s w1 hw1, hr⟩

theorem reset_objects (rnd : Int → Int → Bool) (w : GameWorld) :
    (w.reset rnd).gameObjects = freshCells rnd := by
  simp [GameWorld.reset, createGrid_eq]

theorem rowMajor_step (s u : System) (a : Action) (h : RowMajor s.world.gameObjects)
    (hu : s.step a = some u) : RowMajor u.world.gameObjects := by
  cases a with
  | start =>
    simp only [System.step, Option.some.injEq] at hu
    subst hu
    exact h
  | stop =>
    simp only [System.step, Option.some.injEq] at hu
    subst hu
    exact h
  | reset rnd =>
    simp only [System.step, Option.some.injEq] at hu
    subst hu
    simp only [System.reset]
    rw [reset_objects]
    exact freshCells_rowMajor rnd
  | frame k =>
    have hmem := step_frame_mem s u k hu
    obtain ⟨v, hv, hr⟩ := rowMajor_gameLoop
      { s with browser := { s.browser with frames := s.browser.frames.erase k } } h
    simp only [System.step, hmem, if_true] at hu
    rw [hv] at hu
    exact (Option.some.inj hu) ▸ hr
  | timeout =>
    obtain ⟨_, _, h3⟩ := step_other s u Action.timeout rfl rfl hu
    rw [h3]
    exact h

theorem rowMajor_run (as : List Action) (s u : System) (h : RowMajor s.world.gameObjects)
    (hu : s.run as = some u) : RowMajor u.world.gameObjects := by
  induction as generalizing s with
  | nil =>
    rw [run_nil] at hu
    exact (Option.some.inj hu) ▸ h
  | cons a as ih =>
    rw [run_cons] at hu
    cases ht : s.step a with
    | none => rw [ht] at hu; exact Option.noConfusion hu
    | some t =>
      rw [ht] at hu
      exact ih t (rowMajor_step s t a h ht) hu

theorem construct_rowMajor (rnd : Int → Int → Bool) :
    RowMajor (GameWorld.construct rnd).gameObjects := by
  rw [construct_objects]
  exact freshCells_rowMajor rnd

/-- C12: the predicate "the collection has exactly `numColumns * numRows` cells and
the cell at index `x + y * numColumns` has the coordinates `(x, y)`" holds after
construction, is preserved by `start()`, `stop()`, `reset()`,
`checkSurrounding()` and `gameLoop()` (which both return on such a collection),
and so holds in every state reached from construction by calls of the control
interface and by the callbacks the browser runs. -/
theorem rowMajor_invariant (rnd : Int → Int → Bool) :
    RowMajor (GameWorld.construct rnd).gameObjects ∧
    (∀ s : System, RowMajor s.world.gameObjects →
      RowMajor s.start.world.gameObjects ∧ RowMajor s.stop.world.gameObjects ∧
      (∀ r, RowMajor (s.reset r).world.gameObjects) ∧
      RowMajor s.timeoutCallback.world.gameObjects) ∧
    (∀ w : GameWorld, RowMajor w.gameObjects →
      ∃ u, w.checkSurrounding = some u ∧ RowMajor u.gameObjects) ∧
    (∀ s : System, RowMajor s.world.gameObjects →
      ∃ u, s.gameLoop = some u ∧ RowMajor u.world.gameObjects) ∧
    (∀ (as : List Action) (s : System), (System.initial rnd).run as = some s →
      RowMajor s.world.gameObjects) := by
  refine ⟨construct_rowMajor rnd, ?_, rowMajor_checkSurrounding, rowMajor_gameLoop, ?_⟩
  · intro s h
    refine ⟨h, h, ?_, ?_⟩
    · intro r
      simp only [System.reset]
      rw [reset_objects]
      exact freshCells_rowMajor r
    · simp only [System.timeoutCallback]
      split
      · exact h
      · exact h
  · intro as s hs
    exact rowMajor_run as (System.initial rnd) s (construct_rowMajor rnd) hs

/-- C13: on a collection of exactly `numColumns * numRows` cells
`checkSurrounding()` returns (no access yields `undefined`): every in-bounds
`(x, y)` has its index `x + y * numColumns` in `[0, numColumns * numRows)` and an
element there; each `isAlive` read returns (out of bounds it does not touch the
collection); each round of the evaluation loop and of the commit loop returns
and keeps the number of cells, so the next round is in the same situation. -/
theorem checkSurrounding_total (w : GameWorld)
    (hlen : w.gameObjects.length = numColumns * numRows) :
    (∃ u, w.checkSurrounding = some u ∧ u.gameObjects.length = numColumns * numRows) ∧
    (∀ x y : Int, 0 ≤ x → x < numColumns → 0 ≤ y → y < numRows →
      0 ≤ GameWorld.gridToIndex x y ∧
      GameWorld.gridToIndex x y < ((numColumns * numRows : Nat) : Int) ∧
      ∃ c, getObj w.gameObjects (GameWorld.gridToIndex x y) = some c) ∧
    (∀ x y : Int, ∃ v, w.isAlive x y = some v) ∧
    (∀ x y : Int, 0 ≤ x → x < numColumns → 0 ≤ y → y < numRows →
      ∃ u, GameWorld.evalCell w x y = some u ∧
        u.gameObjects.length = numColumns * numRows) ∧
    (∀ i : Nat, i < w.gameObjects.length →
      ∃ u, GameWorld.commitCell w i = some u ∧
        u.gameObjects.length = numColumns * numRows) := by
  refine ⟨?_, ?_, ?_, ?_, ?_⟩
  · obtain ⟨u, hu, _, _, hl, _⟩ := checkSurrounding_spec w hlen
    exact ⟨u, hu, by rw [hl, hlen]⟩
  · intro x y hx0 hx hy0 hy
    obtain ⟨a, b, ha, hb, rfl, rfl⟩ := inBounds_cast x y hx0 hx hy0 hy
    have hlt := index_lt a b ha hb
    rw [gridToIndex_ofNat]
    refine ⟨Int.natCast_nonneg _, by exact_mod_cast hlt, ?_⟩
    rw [getObj_ofNat]
    exact ⟨_, List.getElem?_eq_getElem (by rw [hlen]; exact hlt)⟩
  · intro x y
    obtain ⟨v, hv, _⟩ := isAlive_toNumber w x y hlen
    exact ⟨v, hv⟩
  · intro x y hx0 hx hy0 hy
    obtain ⟨a, b, ha, hb, rfl, rfl⟩ := inBounds_cast x y hx0 hx hy0 hy
    obtain ⟨c, _, hu⟩ := evalCell_spec w a b ha hb hlen
    exact ⟨_, hu, by simp [withObjects, hlen]⟩
  · intro i hi
    exact ⟨_, commitCell_spec w i _ (List.getElem?_eq_getElem hi),
      by simp [withObjects, hlen]⟩

theorem checkSurrounding_total_witness :
    sampleWorld.gameObjects.length = numColumns * numRows ∧
    (∃ u, sampleWorld.checkSurrounding = some u ∧
      u.gameObjects.length = numColumns * numRows) ∧
    (∀ x y : Int, 0 ≤ x → x < numColumns → 0 ≤ y → y < numRows →
      0 ≤ GameWorld.gridToIndex x y ∧
      GameWorld.gridToIndex x y < ((numColumns * numRows : Nat) : Int) ∧
      ∃ c, getObj sampleWorld.gameObjects (GameWorld.gridToIndex x y) = some c) ∧
    (∀ x y : Int, ∃ v, sampleWorld.isAlive x y = some v) ∧
    (∀ x y : Int, 0 ≤ x → x < numColumns → 0 ≤ y → y < numRows →
      ∃ u, GameWorld.evalCell sampleWorld x y = some u ∧
        u.gameObjects.length = numColumns * numRows) ∧
    (∀ i : Nat, i < sampleWorld.gameObjects.length →
      ∃ u, GameWorld.commitCell sampleWorld i = some u ∧
        u.gameObjects.length = numColumns * numRows) :=
  ⟨construct_length sampleRnd, checkSurrounding_total sampleWorld (construct_length sampleRnd)⟩

/-! ## No wraparound -/

theorem neighbourOffsets_bound :
    ∀ d ∈ neighbourOffsets, -1 ≤ d.1 ∧ d.1 ≤ 1 ∧ -1 ≤ d.2 ∧ d.2 ≤ 1 := by
  decide

theorem aliveAt_of_field (o1 o2 : List Cell) (x y : Int)
    (h : aliveField o1 x y = aliveField o2 x y) : aliveAt o1 x y = aliveAt o2 x y := by
  have e1 : getObj o1 (x + y * numColumns) = getObj o1 (GameWorld.gridToIndex x y) := rfl
  have e2 : getObj o2 (x + y * numColumns) = getObj o2 (GameWorld.gridToIndex x y) := rfl
  unfold aliveField at h
  unfold aliveAt
  rw [e1, e2]
  cases h1 : getObj o1 (GameWorld.gridToIndex x y) with
  | none =>
    cases h2 : getObj o2 (GameWorld.gridToIndex x y) with
    | none => rfl
    | some c2 => rw [h1, h2] at h; exact Option.noConfusion h
  | some c1 =>
    cases h2 : getObj o2 (GameWorld.gridToIndex x y) with
    | none => rw [h1, h2] at h; exact Option.noConfusion h
    | some c2 =>
      rw [h1, h2] at h
      have hal : c1.alive = c2.alive := Option.some.inj h
      simp only [hal]

/-- The next state of a cell depends only on its own state and on whether each of
its eight neighbours is alive. -/
theorem next_alive_congr (w1 w2 u1 u2 : GameWorld)
    (h1 : w1.gameObjects.length = numColumns * numRows)
    (h2 : w2.gameObjects.length = numColumns * numRows)
    (hu1 : w1.checkSurrounding = some u1) (hu2 : w2.checkSurrounding = some u2)
    (a b : Nat) (ha : a < numColumns) (hb : b < numRows)
    (hself : aliveField w1.gameObjects a b = aliveField w2.gameObjects a b)
    (hnb : ∀ d ∈ neighbourOffsets,
      aliveAt w1.gameObjects ((a : Int) + d.1) ((b : Int) + d.2)
        = aliveAt w2.gameObjects ((a : Int) + d.1) ((b : Int) + d.2)) :
    aliveField u1.gameObjects a b = aliveField u2.gameObjects a b := by
  obtain ⟨v1, hv1, _, _, _, hc1⟩ := checkSurrounding_spec w1 h1
  obtain ⟨v2, hv2, _, _, _, hc2⟩ := checkSurrounding_spec w2 h2
  rw [hu1] at hv1
  rw [hu2] at hv2
  have e1 : u1 = v1 := Option.some.inj hv1
  have e2 : u2 = v2 := Option.some.inj hv2
  subst e1
  subst e2
  obtain ⟨c1, d1, hg1, hd1, _, _, _, hal1⟩ := hc1 a b ha hb
  obtain ⟨c2, d2, hg2, hd2, _, _, _, hal2⟩ := hc2 a b ha hb
  have hn : liveNeighbours w1.gameObjects a b = liveNeighbours w2.gameObjects a b := by
    unfold liveNeighbours
    apply List.countP_congr
    intro d hd
    rw [hnb d hd]
  have hcc : c1.alive = c2.alive := by
    simp only [aliveField, gridToIndex_ofNat, getObj_ofNat, hg1, hg2, Option.map_some',
      Option.some.injEq] at hself
    exact hself
  simp only [aliveField, gridToIndex_ofNat, getObj_ofNat, hd1, hd2, Option.map_some',
    Option.some.injEq]
  rw [hal1, hal2, hn, hcc]

/-- C14: there is no wraparound. For two collections of `numColumns * numRows`
cells, `checkSurrounding()` returns on both; if they agree on the `alive` field
of every cell of the columns 0 and 1, every cell `(0, y)` has the same state in
both afterwards, whatever the other columns (column `numColumns - 1` included)
hold; and if they agree on the rows 0 and 1, every cell `(x, 0)` has the same
state in both afterwards, whatever row `numRows - 1` holds. -/
theorem no_wraparound (w1 w2 : GameWorld)
    (h1 : w1.gameObjects.length = numColumns * numRows)
    (h2 : w2.gameObjects.length = numColumns * numRows) :
    ∃ u1 u2, w1.checkSurrounding = some u1 ∧ w2.checkSurrounding = some u2 ∧
      ((∀ x y : Int, 0 ≤ x → x ≤ 1 → 0 ≤ y → y < numRows →
          aliveField w1.gameObjects x y = aliveField w2.gameObjects x y) →
        ∀ y : Int, 0 ≤ y → y < numRows →
          aliveField u1.gameObjects 0 y = aliveField u2.gameObjects 0 y) ∧
      ((∀ x y : Int, 0 ≤ x → x < numColumns → 0 ≤ y → y ≤ 1 →
          aliveField w1.gameObjects x y = aliveField w2.gameObjects x y) →
        ∀ x : Int, 0 ≤ x → x < numColumns →
          aliveField u1.gameObjects x 0 = aliveField u2.gameObjects x 0) := by
  obtain ⟨u1, hu1, _⟩ := checkSurrounding_spec w1 h1
  obtain ⟨u2, hu2, _⟩ := checkSurrounding_spec w2 h2
  refine ⟨u1, u2, hu1, hu2, ?_, ?_⟩
  · intro hag y hy0 hy
    obtain ⟨a, b, ha, hb, ha0, rfl⟩ := inBounds_cast 0 y (le_refl 0) (by decide) hy0 hy
    rw [ha0]
    have ha1 : a = 0 := by omega
    subst ha1
    apply next_alive_congr w1 w2 u1 u2 h1 h2 hu1 hu2 0 b ha hb
    · exact hag _ _ (by simp) (by simp) hy0 hy
    · intro d hd
      have hbd := neighbourOffsets_bound d hd
      by_cases hin : 0 ≤ ((0 : Nat) : Int) + d.1 ∧ 0 ≤ (b : Int) + d.2 ∧
          (b : Int) + d.2 < numRows
      · exact aliveAt_of_field _ _ _ _ (hag _ _ hin.1 (by omega) hin.2.1 hin.2.2)
      · rw [aliveAt_outside _ _ _ (by omega), aliveAt_outside _ _ _ (by omega)]
  · intro hag x hx0 hx
    obtain ⟨a, b, ha, hb, rfl, hb0⟩ := inBounds_cast x 0 hx0 hx (le_refl 0) (by decide)
    rw [hb0]
    have hb1 : b = 0 := by omega
    subst hb1
    apply next_alive_congr w1 w2 u1 u2 h1 h2 hu1 hu2 a 0 ha hb
    · exact hag _ _ hx0 hx (by simp) (by simp)
    · intro d hd
      have hbd := neighbourOffsets_bound d hd
      by_cases hin : 0 ≤ (a : Int) + d.1 ∧ (a : Int) + d.1 < numColumns ∧
          0 ≤ ((0 : Nat) : Int) + d.2
      · exact aliveAt_of_field _ _ _ _ (hag _ _ hin.1 hin.2.1 hin.2.2 (by omega))
      · rw [aliveAt_outside _ _ _ (by omega), aliveAt_outside _ _ _ (by omega)]

theorem construct_aliveField (rnd : Int → Int → Bool) (x y : Int) (hx0 : 0 ≤ x)
    (hx : x < numColumns) (hy0 : 0 ≤ y) (hy : y < numRows) :
    aliveField (GameWorld.construct rnd).gameObjects x y = some (some (rnd x y)) := by
  obtain ⟨a, b, ha, hb, rfl, rfl⟩ := inBounds_cast x y hx0 hx hy0 hy
  have hi := index_lt a b ha hb
  have e1 : (a + b * numColumns) % numColumns = a := by
    simp only [numColumns] at *; omega
  have e2 : (a + b * numColumns) / numColumns = b := by
    simp only [numColumns] at *; omega
  rw [construct_objects, aliveField, gridToIndex_ofNat, getObj_ofNat, freshCells_get rnd _ hi,
    e1, e2]
  rfl

theorem otherWorld_agrees_columns (x y : Int) (hx0 : 0 ≤ x) (hx : x ≤ 1) (hy0 : 0 ≤ y)
    (hy : y < numRows) :
    aliveField sampleWorld.gameObjects x y = aliveField otherWorld.gameObjects x y := by
  have hxc : x < numColumns := by simp only [numColumns]; omega
  rw [sampleWorld, otherWorld, construct_aliveField _ x y hx0 hxc hy0 hy,
    construct_aliveField _ x y hx0 hxc hy0 hy]
  have hne : ¬ (2 ≤ x ∧ 2 ≤ y) := by omega
  simp only [otherRnd, hne, if_false]

theorem no_wraparound_witness :
    sampleWorld.gameObjects.length = numColumns * numRows ∧
    otherWorld.gameObjects.length = numColumns * numRows ∧
    aliveField sampleWorld.gameObjects 74 38 ≠ aliveField otherWorld.gameObjects 74 38 ∧
    (∀ x y : Int, 0 ≤ x → x ≤ 1 → 0 ≤ y → y < numRows →
      aliveField sampleWorld.gameObjects x y = aliveField otherWorld.gameObjects x y) ∧
    ∃ u1 u2, sampleWorld.checkSurrounding = some u1 ∧ otherWorld.checkSurrounding = some u2 ∧
      ((∀ x y : Int, 0 ≤ x → x ≤ 1 → 0 ≤ y → y < numRows →
          aliveField sampleWorld.gameObjects x y = aliveField otherWorld.gameObjects x y) →
        ∀ y : Int, 0 ≤ y → y < numRows →
          aliveField u1.gameObjects 0 y = aliveField u2.gameObjects 0 y) ∧
      ((∀ x y : Int, 0 ≤ x → x < numColumns → 0 ≤ y → y ≤ 1 →
          aliveField sampleWorld.gameObjects x y = aliveField otherWorld.gameObjects x y) →
        ∀ x : Int, 0 ≤ x → x < numColumns →
          aliveField u1.gameObjects x 0 = aliveField u2.gameObjects x 0) :=
  have hdiff : aliveField sampleWorld.gameObjects 74 38
      ≠ aliveField otherWorld.gameObjects 74 38 := by
    rw [sampleWorld, otherWorld,
      construct_aliveField _ 74 38 (by decide) (by decide) (by decide) (by decide),
      construct_aliveField _ 74 38 (by decide) (by decide) (by decide) (by decide)]
    decide
  ⟨construct_length sampleRnd, construct_length otherRnd, hdiff, otherWorld_agrees_columns,
    no_wraparound sampleWorld otherWorld (construct_length sampleRnd)
      (construct_length otherRnd)⟩

/-! ## The control state machine -/

theorem construct_animation (rnd : Int → Int → Bool) :
    (GameWorld.construct rnd).animation = Handle.undefined := by
  simp [GameWorld.construct, createGrid_eq]

theorem step_nextHandle (s u : System) (a : Action) (hwf : WellFormed s)
    (hpos : 1 ≤ s.browser.nextHandle) (hu : s.step a = some u) :
    1 ≤ u.browser.nextHandle := by
  cases a with
  | start =>
    simp only [System.step, Option.some.injEq] at hu
    subst hu
    exact Nat.le_add_left 1 _
  | stop =>
    simp only [System.step, Option.some.injEq] at hu
    subst hu
    simp only [System.stop]
    cases s.world.animation <;> exact hpos
  | reset rnd =>
    simp only [System.step, Option.some.injEq] at hu
    subst hu
    rw [reset_browser]
    exact hpos
  | frame k =>
    have hmem := step_frame_mem s u k hu
    obtain ⟨v, hv, _, _, _, _, _, _, h7⟩ := gameLoop_spec
      { s with browser := { s.browser with frames := s.browser.frames.erase k } } hwf
    simp only [System.step, hmem, if_true] at hu
    rw [hv] at hu
    have := Option.some.inj hu
    subst this
    rw [h7]
    exact hpos
  | timeout =>
    have hp := step_timeout_pos s u hu
    simp only [System.step, hp, if_true, Option.some.injEq] at hu
    subst hu
    simp only [System.timeoutCallback]
    split
    · exact Nat.le_add_left 1 _
    · exact hpos

theorem run_nextHandle (as : List Action) (s u : System) (hwf : WellFormed s)
    (hpos : 1 ≤ s.browser.nextHandle) (hu : s.run as = some u) :
    1 ≤ u.browser.nextHandle := by
  induction as generalizing s with
  | nil =>
    rw [run_nil] at hu
    exact (Option.some.inj hu) ▸ hpos
  | cons a as ih =>
    rw [run_cons] at hu
    cases ht : s.step a with
    | none => rw [ht] at hu; exact Option.noConfusion hu
    | some t =>
      rw [ht] at hu
      exact ih t (step_wellFormed s t a hwf ht) (step_nextHandle s t a hwf hpos ht) hu

theorem start_truthy (s : System) (hpos : 1 ≤ s.browser.nextHandle) :
    s.start.world.animation.truthy = true := by
  have hne : s.browser.nextHandle ≠ 0 := by omega
  simp [System.start, Browser.requestAnimationFrame, Handle.truthy, hne]

/-- C15: after construction the animation handle is `undefined`, which is falsy
(Stopped); `start()` stores a request handle, which is truthy (Running) since
handles start at `1`, in particular in every state reached from construction;
`stop()` stores `null` (Stopped); and neither `start()` nor `stop()` changes the
cell collection or the generation counter. -/
theorem control_state_machine (rnd : Int → Int → Bool) :
    (System.initial rnd).world.animation = Handle.undefined ∧
    (System.initial rnd).world.animation.truthy = false ∧
    (∀ s : System, 1 ≤ s.browser.nextHandle → s.start.world.animation.truthy = true) ∧
    (∀ (as : List Action) (s : System), (System.initial rnd).run as = some s →
      1 ≤ s.browser.nextHandle ∧ s.start.world.animation.truthy = true) ∧
    (∀ s : System, s.stop.world.animation = Handle.null ∧
      s.stop.world.animation.truthy = false) ∧
    (∀ s : System, s.start.world.gameObjects = s.world.gameObjects ∧
      s.start.world.nGenerations = s.world.nGenerations ∧
      s.stop.world.gameObjects = s.world.gameObjects ∧
      s.stop.world.nGenerations = s.world.nGenerations) := by
  have h0 : (System.initial rnd).world.animation = Handle.undefined := construct_animation rnd
  refine ⟨h0, by rw [h0]; rfl, start_truthy, ?_, fun s => ⟨rfl, rfl⟩,
    fun s => ⟨rfl, rfl, rfl, rfl⟩⟩
  intro as s hs
  have hpos := run_nextHandle as (System.initial rnd) s (construct_length rnd)
    (Nat.le_refl 1) hs
  exact ⟨hpos, start_truthy s hpos⟩

/-! ## `gridToIndex` and the order of the evaluation loop -/

theorem evalWrites_column (x : Nat) (t : List Int) :
    forLoop numRows (fun y t => t ++ [GameWorld.gridToIndex x y]) t = t ++ columnWrites x := by
  refine forLoop_inv (fun n u => u = t ++ (List.range n).map
    (fun (y : Nat) => GameWorld.gridToIndex (x : Int) (y : Int))) numRows _ t ?_ ?_
  · simp
  · intro i _ u hu
    subst hu
    simp [List.range_succ]

theorem evalWrites_eq : evalWrites = (List.range numColumns).flatMap columnWrites := by
  unfold evalWrites
  refine forLoop_inv (fun n u => u = (List.range n).flatMap columnWrites) numColumns _ [] ?_ ?_
  · simp
  · intro i _ u hu
    subst hu
    rw [evalWrites_column]
    simp [List.range_succ]

theorem mem_evalWrites (j : Int) :
    j ∈ evalWrites ↔ ∃ x y : Nat, x < numColumns ∧ y < numRows ∧
      GameWorld.gridToIndex x y = j := by
  rw [evalWrites_eq]
  simp only [List.mem_flatMap, columnWrites, List.mem_map, List.mem_range]
  constructor
  · rintro ⟨x, hx, y, hy, h⟩
    exact ⟨x, y, hx, hy, h⟩
  · rintro ⟨x, y, hx, hy, h⟩
    exact ⟨x, hx, y, hy, h⟩

theorem evalWrites_nodup : evalWrites.Nodup := by
  rw [evalWrites_eq, List.nodup_flatMap]
  constructor
  · intro x _
    unfold columnWrites
    apply List.Nodup.map _ (List.nodup_range numRows)
    intro y1 y2 h
    simp only [gridToIndex_ofNat] at h
    have h2 : x + y1 * numColumns = x + y2 * numColumns := by exact_mod_cast h
    simp only [numColumns] at h2
    omega
  · apply (List.pairwise_lt_range numColumns).imp_of_mem
    intro x1 x2 hx1 hx2 hlt
    rw [List.mem_range] at hx1 hx2
    simp only [Function.onFun]
    rw [List.disjoint_left]
    intro j h1 h2
    simp only [columnWrites, List.mem_map, List.mem_range] at h1 h2
    obtain ⟨y1, _, e1⟩ := h1
    obtain ⟨y2, _, e2⟩ := h2
    rw [gridToIndex_ofNat] at e1 e2
    have h3 : x1 + y1 * numColumns = x2 + y2 * numColumns := by
      have : ((x1 + y1 * numColumns : Nat) : Int) = ((x2 + y2 * numColumns : Nat) : Int) := by
        rw [e1, e2]
      exact_mod_cast this
    have := (index_inj x1 y1 x2 y2 hx1 hx2 h3).1
    omega

theorem evalWrites_length : evalWrites.length = numColumns * numRows := by
  have h : ∀ n : Nat, ((List.range n).flatMap columnWrites).length = n * numRows := by
    intro n
    induction n with
    | zero => simp
    | succ k ih =>
      rw [List.range_succ, List.flatMap_append, List.length_append, ih, List.flatMap_singleton]
      simp only [columnWrites, List.length_map, List.length_range]
      ring
  rw [evalWrites_eq, h]

/-! ## The all-dead grid -/

theorem aliveAt_dead (objs : List Cell) (h : ∀ c ∈ objs, truthy c.alive = false) (x y : Int) :
    aliveAt objs x y = false := by
  unfold aliveAt
  cases hg : getObj objs (x + y * numColumns) with
  | none => simp
  | some c =>
    have hm : c ∈ objs := by
      unfold getObj at hg
      split at hg
      · exact Option.noConfusion hg
      · exact List.getElem?_mem hg
    simp [h c hm]

theorem liveNeighbours_dead (objs : List Cell) (h : ∀ c ∈ objs, truthy c.alive = false)
    (x y : Int) : liveNeighbours objs x y = 0 := by
  unfold liveNeighbours
  rw [List.countP_eq_zero]
  intro d _
  simp [aliveAt_dead objs h]

theorem checkSurrounding_dead (w : GameWorld)
    (hlen : w.gameObjects.length = numColumns * numRows)
    (hdead : ∀ c ∈ w.gameObjects, truthy c.alive = false) :
    ∃ u, w.checkSurrounding = some u ∧ u.gameObjects.length = numColumns * numRows ∧
      ∀ c ∈ u.gameObjects, c.alive = some false := by
  obtain ⟨u, hu, _, _, hl, hcells⟩ := checkSurrounding_spec_idx w hlen
  refine ⟨u, hu, by rw [hl, hlen], ?_⟩
  intro c2 hc2
  obtain ⟨i, hi⟩ := List.getElem?_of_mem hc2
  have hlt : i < numColumns * numRows := by
    by_contra hcon
    rw [List.getElem?_eq_none_iff.2 (by rw [hl, hlen]; omega)] at hi
    exact Option.noConfusion hi
  obtain ⟨c, c3, _, hc3, _, _, hn, hal⟩ := hcells i hlt
  rw [hi] at hc3
  have := Option.some.inj hc3
  subst this
  rw [hal, hn, liveNeighbours_dead w.gameObjects hdead]
  rfl

/-- C17: if every one of the `numColumns * numRows` cells is dead, then any number
`k` of consecutive calls of `checkSurrounding()` returns and leaves every cell
dead (with `alive` the boolean `false` as soon as `k ≥ 1`). -/
theorem all_dead_fixed_point (w : GameWorld) (k : Nat)
    (hlen : w.gameObjects.length = numColumns * numRows)
    (hdead : ∀ c ∈ w.gameObjects, truthy c.alive = false) :
    ∃ u, checkSurroundingN k w = some u ∧
      u.gameObjects.length = numColumns * numRows ∧
      (∀ c ∈ u.gameObjects, truthy c.alive = false) ∧
      (1 ≤ k → ∀ c ∈ u.gameObjects, c.alive = some false) := by
  induction k with
  | zero => exact ⟨w, rfl, hlen, hdead, fun h => absurd h (by decide)⟩
  | succ n ih =>
    obtain ⟨v, hv, hlv, hdv, _⟩ := ih
    obtain ⟨u, hu, hlu, hdu⟩ := checkSurrounding_dead v hlv hdv
    refine ⟨u, ?_, hlu, ?_, fun _ => hdu⟩
    · simp only [checkSurroundingN, hv, Option.some_bind, hu]
    · intro c hc
      rw [hdu c hc]
      rfl

theorem mem_freshCells (rnd : Int → Int → Bool) (c : Cell) (hc : c ∈ freshCells rnd) :
    ∃ i : Nat, c = cellOfIndex rnd i := by
  simp only [freshCells, List.mem_map] at hc
  obtain ⟨i, _, hi⟩ := hc
  exact ⟨i, hi.symm⟩

theorem deadWorld_dead : ∀ c ∈ deadWorld.gameObjects, truthy c.alive = false := by
  intro c hc
  rw [deadWorld, construct_objects] at hc
  obtain ⟨i, rfl⟩ := mem_freshCells _ c hc
  rfl

theorem all_dead_fixed_point_witness :
    deadWorld.gameObjects.length = numColumns * numRows ∧
    (∀ c ∈ deadWorld.gameObjects, truthy c.alive = false) ∧
    ∃ u, checkSurroundingN 3 deadWorld = some u ∧
      u.gameObjects.length = numColumns * numRows ∧
      (∀ c ∈ u.gameObjects, truthy c.alive = false) ∧
      (1 ≤ 3 → ∀ c ∈ u.gameObjects, c.alive = some false) :=
  ⟨construct_length _, deadWorld_dead,
    all_dead_fixed_point deadWorld 3 (construct_length _) deadWorld_dead⟩

/-! ## Pending and committed state -/

theorem nextState_bool (b : Bool) (n : Nat) : ∃ b2, nextState (some b) n = some b2 := by
  unfold nextState
  by_cases h2 : n = 2
  · exact ⟨b, by simp [h2]⟩
  · by_cases h3 : n = 3
    · exact ⟨true, by simp [h3]⟩
    · exact ⟨false, by simp [h2, h3]⟩

/-- C18: after `checkSurrounding()` on a collection of `numColumns * numRows` cells,
the collection has the same length and, index by index, every cell keeps its
coordinates `(gridX, gridY)`, has `alive == nextAlive`, and has a boolean
`nextAlive` (no longer `null`) whenever its `alive` was a boolean before the
call. The field `alive` is a boolean in every cell the constructor makes and, by
the above, stays one after every call, so on the grids of the program
`nextAlive` is a boolean in every cell. -/
theorem checkSurrounding_commits (w : GameWorld)
    (hlen : w.gameObjects.length = numColumns * numRows) :
    (∃ u, w.checkSurrounding = some u ∧
      u.gameObjects.length = w.gameObjects.length ∧
      (∀ (i : Nat) (c : Cell), w.gameObjects[i]? = some c →
        ∃ c2 : Cell, u.gameObjects[i]? = some c2 ∧
          c2.gridX = c.gridX ∧ c2.gridY = c.gridY ∧
          c2.alive = c2.nextAlive ∧
          ((∃ b, c.alive = some b) → ∃ b2, c2.nextAlive = some b2 ∧ c2.alive = some b2)) ∧
      ((∀ c ∈ w.gameObjects, ∃ b, c.alive = some b) →
        ∀ c2 ∈ u.gameObjects, ∃ b2, c2.nextAlive = some b2 ∧ c2.alive = some b2)) ∧
    (∀ (rnd : Int → Int → Bool), ∀ c ∈ (GameWorld.construct rnd).gameObjects,
      (∃ b, c.alive = some b) ∧ c.nextAlive = none) := by
  constructor
  · obtain ⟨u, hu, _, _, hl, hcells⟩ := checkSurrounding_spec_idx w hlen
    have hcell : ∀ (i : Nat) (c : Cell), w.gameObjects[i]? = some c →
        ∃ c2 : Cell, u.gameObjects[i]? = some c2 ∧
          c2.gridX = c.gridX ∧ c2.gridY = c.gridY ∧
          c2.alive = c2.nextAlive ∧
          ((∃ b, c.alive = some b) → ∃ b2, c2.nextAlive = some b2 ∧ c2.alive = some b2) := by
      intro i c hc
      have hlt : i < numColumns * numRows := by
        by_contra hcon
        rw [List.getElem?_eq_none_iff.2 (by rw [hlen]; omega)] at hc
        exact Option.noConfusion hc
      obtain ⟨c1, c2, hc1, hc2, hx, hy, hn, hal⟩ := hcells i hlt
      rw [hc] at hc1
      have := Option.some.inj hc1
      subst this
      refine ⟨c2, hc2, hx, hy, hal, ?_⟩
      rintro ⟨b, hb⟩
      obtain ⟨b2, hb2⟩ := nextState_bool b
        (liveNeighbours w.gameObjects ((i % numColumns : Nat) : Int)
          ((i / numColumns : Nat) : Int))
      rw [hb] at hn
      exact ⟨b2, by rw [hn, hb2], by rw [hal, hn, hb2]⟩
    refine ⟨u, hu, hl, hcell, ?_⟩
    intro hbool c2 hc2
    obtain ⟨i, hi⟩ := List.getElem?_of_mem hc2
    have hlt : i < w.gameObjects.length := by
      by_contra hcon
      rw [List.getElem?_eq_none_iff.2 (by rw [hl]; omega)] at hi
      exact Option.noConfusion hi
    obtain ⟨c3, hc3, _, _, _, hb⟩ := hcell i _ (List.getElem?_eq_getElem hlt)
    rw [hi] at hc3
    have := Option.some.inj hc3
    subst this
    exact hb (hbool _ (List.getElem_mem hlt))
  · intro rnd c hc
    rw [construct_objects] at hc
    obtain ⟨i, rfl⟩ := mem_freshCells rnd c hc
    exact ⟨⟨_, rfl⟩, rfl⟩

theorem checkSurrounding_commits_witness :
    sampleWorld.gameObjects.length = numColumns * numRows ∧
    (∃ u, sampleWorld.checkSurrounding = some u ∧
      u.gameObjects.length = sampleWorld.gameObjects.length ∧
      (∀ (i : Nat) (c : Cell), sampleWorld.gameObjects[i]? = some c →
        ∃ c2 : Cell, u.gameObjects[i]? = some c2 ∧
          c2.gridX = c.gridX ∧ c2.gridY = c.gridY ∧
          c2.alive = c2.nextAlive ∧
          ((∃ b, c.alive = some b) → ∃ b2, c2.nextAlive = some b2 ∧ c2.alive = some b2)) ∧
      ((∀ c ∈ sampleWorld.gameObjects, ∃ b, c.alive = some b) →
        ∀ c2 ∈ u.gameObjects, ∃ b2, c2.nextAlive = some b2 ∧ c2.alive = some b2)) ∧
    (∀ (rnd : Int → Int → Bool), ∀ c ∈ (GameWorld.construct rnd).gameObjects,
      (∃ b, c.alive = some b) ∧ c.nextAlive = none) :=
  ⟨construct_length sampleRnd, checkSurrounding_commits sampleWorld (construct_length sampleRnd)⟩

/-! ## `stop()` with more than one chain -/

/-- C9 (the code at the failing inputs): `stop()` cancels only the frame whose handle
is in `this.animation`. After construction, `start(); start(); stop()` leaves the
frame of handle `1` pending although the handle is `null`; it fires, runs
`gameLoop()` and dispatches the event `1` after `stop()`. And after
`start()`, one execution of `gameLoop()`, `stop()` and `start()` again, the
timeout left by the first run sees the new handle as truthy and requests a
second frame; the last `stop()` cancels that one only, and the frame of handle
`2` runs `gameLoop()` and dispatches the event `2` after it. -/
theorem stop_leaves_loop_running :
    (System.initial sampleRnd).start.start.stop.world.animation = Handle.null ∧
    (System.initial sampleRnd).start.start.stop.browser.frames = [1] ∧
    (∃ s, (System.initial sampleRnd).run
        [Action.start, Action.start, Action.stop, Action.frame 1] = some s ∧
      s.browser.events = [1]) ∧
    (∃ t s, (System.initial sampleRnd).run
        [Action.start, Action.frame 1, Action.stop, Action.start, Action.timeout, Action.stop]
          = some t ∧
      t.world.animation = Handle.null ∧ t.browser.frames = [2] ∧ t.browser.events = [1] ∧
      t.step (Action.frame 2) = some s ∧ s.browser.events = [1, 2]) := by
  refine ⟨rfl, rfl, ?_, ?_⟩
  · have hwf : WellFormed (System.initial sampleRnd).start.start.stop :=
      construct_length sampleRnd
    obtain ⟨u, hu, _, _, _, e1, _⟩ :=
      step_frame_spec (System.initial sampleRnd).start.start.stop 1 hwf
        (List.mem_singleton.2 rfl)
    refine ⟨u, ?_, ?_⟩
    · have hs1 : (System.initial sampleRnd).step Action.start
          = some (System.initial sampleRnd).start := rfl
      have hs2 : (System.initial sampleRnd).start.step Action.start
          = some (System.initial sampleRnd).start.start := rfl
      have hs3 : (System.initial sampleRnd).start.start.step Action.stop
          = some (System.initial sampleRnd).start.start.stop := rfl
      rw [run_cons_some _ _ _ _ hs1, run_cons_some _ _ _ _ hs2, run_cons_some _ _ _ _ hs3,
        run_single]
      exact hu
    · rw [e1]
      rfl
  · have hwf : WellFormed (System.initial sampleRnd).start := construct_length sampleRnd
    obtain ⟨u, hu, hwfu, g1, a1, e1, f1, t1, n1⟩ :=
      step_frame_handle (System.initial sampleRnd).start 1 hwf (List.mem_singleton.2 rfl)
    have ha : u.world.animation = Handle.id 1 := a1
    have he : u.browser.events = [1] := e1
    have hf : u.browser.frames = [] := f1
    have ht : u.browser.timeouts = 1 := t1
    have hn : u.browser.nextHandle = 2 := n1
    have hg : u.world.nGenerations = 1 := g1
    have hpos : 0 < u.stop.start.browser.timeouts := by
      simp [System.stop, System.start, Browser.requestAnimationFrame, cancel_timeouts, ht]
    have htru : u.stop.start.world.animation.truthy = true := by
      simp [System.stop, System.start, Browser.requestAnimationFrame, Handle.truthy, ha,
        Browser.cancelAnimationFrame, hn]
    have hstep : u.stop.start.step Action.timeout = some (System.timeoutCallback
        { u.stop.start with browser :=
            { u.stop.start.browser with timeouts := u.stop.start.browser.timeouts - 1 } }) := by
      simp only [System.step, hpos, if_true]
    have hrun : (System.initial sampleRnd).run
        [Action.start, Action.frame 1, Action.stop, Action.start, Action.timeout, Action.stop]
          = some (System.timeoutCallback
        { u.stop.start with browser :=
            { u.stop.start.browser with
                timeouts := u.stop.start.browser.timeouts - 1 } }).stop := by
      have hs1 : (System.initial sampleRnd).step Action.start
          = some (System.initial sampleRnd).start := rfl
      have hs3 : u.step Action.stop = some u.stop := rfl
      have hs4 : u.stop.step Action.start = some u.stop.start := rfl
      rw [run_cons_some _ _ _ _ hs1, run_cons_some _ _ _ _ hu, run_cons_some _ _ _ _ hs3,
        run_cons_some _ _ _ _ hs4, run_cons_some _ _ _ _ hstep, run_single]
      rfl
    have hfr : (System.timeoutCallback
        { u.stop.start with browser :=
            { u.stop.start.browser with
                timeouts := u.stop.start.browser.timeouts - 1 } }).stop.browser.frames
          = [2] := by
      simp only [System.timeoutCallback, htru, if_true]
      simp [System.stop, System.start, Browser.requestAnimationFrame,
        Browser.cancelAnimationFrame, ha, hf, hn]
    have hev : (System.timeoutCallback
        { u.stop.start with browser :=
            { u.stop.start.browser with
                timeouts := u.stop.start.browser.timeouts - 1 } }).stop.browser.events
          = [1] := by
      simp only [System.timeoutCallback, htru, if_true]
      simp [System.stop, System.start, Browser.requestAnimationFrame, cancel_events, he]
    have hgen : (System.timeoutCallback
        { u.stop.start with browser :=
            { u.stop.start.browser with
                timeouts := u.stop.start.browser.timeouts - 1 } }).stop.world.nGenerations
          = 1 := by
      simp only [System.timeoutCallback, htru, if_true]
      simp [System.stop, System.start, hg]
    have hwft : WellFormed (System.timeoutCallback
        { u.stop.start with browser :=
            { u.stop.start.browser with
                timeouts := u.stop.start.browser.timeouts - 1 } }).stop := by
      simp only [System.timeoutCallback, htru, if_true]
      exact hwfu
    obtain ⟨s, hs, _, _, _, e2, _⟩ := step_frame_spec _ 2 hwft (by rw [hfr]; simp)
    refine ⟨_, s, hrun, rfl, hfr, hev, hs, ?_⟩
    rw [e2, hev, hgen]
    rfl

/-! ## The log of the evaluation loop -/

/-- A loop whose body also appends a chunk to a log computes what the loop
without the log computes, and appends the chunks in order. -/
theorem forLoopM_logged {σ : Type} (n : Nat) (body : Nat → σ → Option σ)
    (chunk : Nat → List Int) (s : σ) (l : List Int) :
    forLoopM n (fun i p => (body i p.1).map (fun t => (t, p.2 ++ chunk i))) (s, l)
      = (forLoopM n body s).map (fun t => (t, l ++ (List.range n).flatMap chunk)) := by
  induction n with
  | zero => simp [forLoopM]
  | succ k ih =>
    rw [forLoopM_succ, ih, forLoopM_succ]
    cases forLoopM k body s with
    | none => rfl
    | some t =>
      simp only [Option.map_some', Option.some_bind]
      cases body k t with
      | none => rfl
      | some t2 =>
        simp only [Option.map_some', List.range_succ, List.flatMap_append,
          List.flatMap_singleton, List.append_assoc]

theorem flatMap_singleton_map (n : Nat) (f : Nat → Int) :
    (List.range n).flatMap (fun y => [f y]) = (List.range n).map f := by
  induction n with
  | zero => rfl
  | succ k ih =>
    rw [List.range_succ, List.flatMap_append, List.map_append, ih]
    rfl

theorem evalColumnLogged (x : Nat) (p : GameWorld × List Int) :
    forLoopM numRows (fun y s => evalCellLogged s (x : Int) (y : Int)) p
      = (forLoopM numRows (fun y w => GameWorld.evalCell w (x : Int) (y : Int)) p.1).map
          (fun t => (t, p.2 ++ columnWrites x)) := by
  have h := forLoopM_logged numRows (fun y w => GameWorld.evalCell w (x : Int) (y : Int))
    (fun y => [GameWorld.gridToIndex (x : Int) (y : Int)]) p.1 p.2
  rw [flatMap_singleton_map] at h
  exact h

/-- The logged loop runs the evaluation loop of `checkSurrounding()` itself, and
its log is `evalWrites`. -/
theorem evalLoopLogged_eq (w : GameWorld) :
    evalLoopLogged w
      = (forLoopM numColumns (fun x w =>
          forLoopM numRows (fun y w => GameWorld.evalCell w x y) w) w).map
          (fun t => (t, evalWrites)) := by
  have hbody : (fun (x : Nat) (s : GameWorld × List Int) =>
        forLoopM numRows (fun y s => evalCellLogged s (x : Int) (y : Int)) s)
      = (fun (x : Nat) (p : GameWorld × List Int) =>
        (forLoopM numRows (fun y w => GameWorld.evalCell w (x : Int) (y : Int)) p.1).map
          (fun t => (t, p.2 ++ columnWrites x))) := by
    funext x p
    exact evalColumnLogged x p
  unfold evalLoopLogged
  rw [hbody, forLoopM_logged, evalWrites_eq]
  rfl

theorem checkSurrounding_unfold (w : GameWorld) :
    w.checkSurrounding
      = (forLoopM numColumns (fun x w =>
          forLoopM numRows (fun y w => GameWorld.evalCell w x y) w) w).bind
          (fun w1 => forLoopM w1.gameObjects.length (fun i w => GameWorld.commitCell w i) w1) := by
  rfl

/-- C16: restricted to in-bounds coordinates, `gridToIndex` is a bijection onto the
index range `[0, numColumns * numRows)`: its values lie in the range, it is
injective, and every index of the range is the value at some in-bounds pair.
On a collection of `numColumns * numRows` cells, the round of the evaluation
loop of `checkSurrounding()` at `(x, y)` returns, stores the value of the rule in
`nextAlive` of the cell at the index `gridToIndex(x, y)` (replacing the `null` of
a fresh cell by a boolean) and leaves every other cell as it is. The evaluation
loop of `checkSurrounding()`, run with a log of these indices, returns the very
world that `checkSurrounding()` then commits, and its log has
`numColumns * numRows` entries, all in the index range, in which every index of
the row-major collection occurs exactly once. -/
theorem gridToIndex_bijection :
    (∀ x y : Int, 0 ≤ x → x < numColumns → 0 ≤ y → y < numRows →
      0 ≤ GameWorld.gridToIndex x y ∧
      GameWorld.gridToIndex x y < ((numColumns * numRows : Nat) : Int)) ∧
    (∀ x1 y1 x2 y2 : Int, 0 ≤ x1 → x1 < numColumns → 0 ≤ y1 → y1 < numRows →
      0 ≤ x2 → x2 < numColumns → 0 ≤ y2 → y2 < numRows →
      GameWorld.gridToIndex x1 y1 = GameWorld.gridToIndex x2 y2 → x1 = x2 ∧ y1 = y2) ∧
    (∀ i : Int, 0 ≤ i → i < ((numColumns * numRows : Nat) : Int) →
      ∃ x y : Int, 0 ≤ x ∧ x < numColumns ∧ 0 ≤ y ∧ y < numRows ∧
        GameWorld.gridToIndex x y = i) ∧
    (∀ (w : GameWorld) (x y : Nat), w.gameObjects.length = numColumns * numRows →
      x < numColumns → y < numRows →
      ∃ (u : GameWorld) (c c2 : Cell), GameWorld.evalCell w x y = some u ∧
        getObj w.gameObjects (GameWorld.gridToIndex x y) = some c ∧
        getObj u.gameObjects (GameWorld.gridToIndex x y) = some c2 ∧
        c2.nextAlive = nextState c.alive (liveNeighbours w.gameObjects x y) ∧
        c2.alive = c.alive ∧ c2.gridX = c.gridX ∧ c2.gridY = c.gridY ∧
        ((∃ b, c.alive = some b) → c.nextAlive = none → c2.nextAlive ≠ c.nextAlive) ∧
        ∀ j : Nat, (j : Int) ≠ GameWorld.gridToIndex x y →
          u.gameObjects[j]? = w.gameObjects[j]?) ∧
    (∀ w : GameWorld, w.gameObjects.length = numColumns * numRows →
      ∃ (u : GameWorld) (log : List Int), evalLoopLogged w = some (u, log) ∧
        w.checkSurrounding
          = forLoopM u.gameObjects.length (fun i w => GameWorld.commitCell w i) u ∧
        log.length = numColumns * numRows ∧
        (∀ j ∈ log, 0 ≤ j ∧ j < ((numColumns * numRows : Nat) : Int)) ∧
        (∀ i : Nat, i < numColumns * numRows → log.count (i : Int) = 1)) := by
  refine ⟨?_, ?_, ?_, ?_, ?_⟩
  · intro x y hx0 hx hy0 hy
    simp only [GameWorld.gridToIndex, numColumns, numRows] at *
    omega
  · intro x1 y1 x2 y2 _ _ _ _ _ _ _ _ h
    simp only [GameWorld.gridToIndex, numColumns, numRows] at *
    omega
  · intro i hi0 hi
    refine ⟨i % 75, i / 75, ?_⟩
    simp only [GameWorld.gridToIndex, numColumns, numRows] at *
    omega
  · intro w x y hlen hx hy
    obtain ⟨c, hc, hu⟩ := evalCell_spec w x y hx hy hlen
    have hlt : x + y * numColumns < w.gameObjects.length := by
      rw [hlen]; exact index_lt x y hx hy
    refine ⟨_, c, pendingCell w.gameObjects x y c, hu, ?_, ?_, rfl, rfl, rfl, rfl, ?_, ?_⟩
    · rw [gridToIndex_ofNat, getObj_ofNat, hc]
    · rw [gridToIndex_ofNat, getObj_ofNat]
      simp only [withObjects]
      rw [List.getElem?_set, if_pos rfl, if_pos hlt]
    · rintro ⟨b, hb⟩ hnone
      obtain ⟨b2, hb2⟩ := nextState_bool b (liveNeighbours w.gameObjects x y)
      simp only [pendingCell, hb, hb2, hnone]
      exact fun h => Option.noConfusion h
    · intro j hj
      simp only [withObjects]
      apply List.getElem?_set_ne
      intro hcon
      apply hj
      rw [gridToIndex_ofNat, hcon]
  · intro w hlen
    obtain ⟨u, hu, _⟩ := evalPhase_spec w hlen
    refine ⟨u, evalWrites, ?_, ?_, evalWrites_length, ?_, ?_⟩
    · rw [evalLoopLogged_eq, hu]
      rfl
    · rw [checkSurrounding_unfold, hu]
      rfl
    · intro j hj
      obtain ⟨x, y, hx, hy, rfl⟩ := (mem_evalWrites j).1 hj
      rw [gridToIndex_ofNat]
      exact ⟨Int.natCast_nonneg _, by exact_mod_cast index_lt x y hx hy⟩
    · intro i hi
      apply List.count_eq_one_of_mem evalWrites_nodup
      rw [mem_evalWrites]
      refine ⟨i % numColumns, i / numColumns, ?_, ?_, ?_⟩
      · simp only [numColumns]; omega
      · simp only [numColumns, numRows] at *; omega
      · rw [gridToIndex_ofNat]
        have : i % numColumns + i / numColumns * numColumns = i := by
          simp only [numColumns]; omega
        rw [this]

end Life
